
import Mathlib

/-!
Verification of the pyvsf core against its specification.

The development shallowly embeds the C++ sources (src/libvsf/partition.hpp,
src/libvsf/accumulators.hpp, src/libvsf/compound_accumulator.hpp, src/vsf.cpp)
into Lean:

* machine `double` arithmetic is modelled by exact rationals `ℚ`; where a
  property depends on IEEE comparison semantics for non-finite values the
  type `F64` (a rational together with NaN and the two infinities) with the
  IEEE strict order `f64_lt` is used;
* `std::size_t` / `std::uint64_t` / `std::int64_t` are modelled by `ℕ` / `ℤ`
  (the quantities involved - point counts, segment counts, bin counts - stay
  far below the wrap-around range on every path considered);
* a call to the fatal `error(...)` helper (which prints and exits) is
  modelled by `Option.none` where a claim needs to observe it;
* raw pointers to caller buffers become `List` values, a null pointer becomes
  `Option.none`.
-/

/-! ### Chunk slicing (src/libvsf/partition.hpp, calc_chunk_slice) -/

/-- The lambda `calc_chunk_size` inside `calc_chunk_slice`:
`(array_len / num_chunks) + (chunk_index < array_len % num_chunks)`. -/
def calc_chunk_size (array_len num_chunks chunk_index : ℕ) : ℕ :=
  array_len / num_chunks + if chunk_index < array_len % num_chunks then 1 else 0

/-- The running `start_index`/`stop_index` of the loop in `calc_chunk_slice`:
after processing chunks `0, …, i-1`, `stop_index = chunk_start … i`. -/
def chunk_start (array_len num_chunks : ℕ) : ℕ → ℕ
  | 0 => 0
  | i + 1 => chunk_start array_len num_chunks i + calc_chunk_size array_len num_chunks i

/-- `calc_chunk_slice(chunk_index, array_len, num_chunks)` - the `[start, stop)`
half-open index range of one chunk.  The C++ guard
`(array_len < num_chunks) | (num_chunks <= chunk_index)` calls the fatal
`error`; theorems below carry the corresponding validity hypotheses. -/
def calc_chunk_slice (chunk_index array_len num_chunks : ℕ) : ℕ × ℕ :=
  (chunk_start array_len num_chunks chunk_index,
   chunk_start array_len num_chunks (chunk_index + 1))

/-- `num_dist_array_chunks_auto(segments)` = rectangles + triangles. -/
def num_dist_array_chunks_auto (segments : ℕ) : ℕ :=
  (segments - 1) * segments / 2 + segments

/-! ### Validation logic of `calc_vsf_props` (src/vsf.cpp) -/

/-- The fields of `PointProps` (declared in vsf.hpp, used throughout vsf.cpp).
Null pointers are modelled by `Option.none`; live buffers by index functions. -/
structure PointProps where
  positions : Option (ℕ → ℚ)
  values : Option (ℕ → ℚ)
  n_points : ℕ
  n_spatial_dims : ℕ
  spatial_dim_stride : ℕ

/-- The validation prefix of `calc_vsf_props` (src/vsf.cpp:332-363): the
sequence of early `return false` checks followed by the parse of
`pairwise_op`.  Everything after the last check runs to the final
`return true`, so the returned flag is fully determined by this prefix. -/
def calc_vsf_props_accepts (points_a points_b : PointProps) (pairwise_op : String)
    (nbins : ℕ) : Bool :=
  -- duplicated_points := points_b.positions and points_b.values both null;
  -- my_points_b := duplicated_points ? points_a : points_b
  if nbins = 0 then false
  else if points_a.n_spatial_dims ≠ 3 then false
  else if (if points_b.positions.isNone && points_b.values.isNone then points_a
      else points_b).n_spatial_dims ≠ 3 then false
  else if points_a.positions.isNone || points_a.values.isNone then false
  else if pairwise_op = "correlate" then true
  else if pairwise_op = "sf" then true
  else false

/-! ### `stat_name` of the central-moment accumulator
(src/libvsf/accumulators.hpp:96-111) -/

/-- The `constexpr if` chain of `CentralMomentAccum<Order, CountT>::stat_name`.
`weighted` stands for `CountT == double`.  The final `else` branch raises a
compile-time `static_assert` ("weird template specialization"); it is
modelled by `none`.  Note that the fifth branch repeats the condition
`Order == 2 && CountT == int64_t` of the third branch, so its
`return "cmoment3"` is unreachable and `Order == 3` falls into the
`static_assert` branch. -/
def CentralMomentAccum.stat_name (order : ℕ) (weighted : Bool) : Option String :=
  if order = 1 ∧ weighted = false then some "mean"
  else if order = 1 then some "weightedmean"
  else if order = 2 ∧ weighted = false then some "variance"
  else if order = 2 then some "weightedvariance"
  else if order = 2 ∧ weighted = false then some "cmoment3"
  else none

/-! ### Partition strategies and their tasks (src/libvsf/partition.hpp) -/

/-- `StatTask`: when `start_B == stop_B == 0` the task denotes an auto
computation on `[start_A, stop_A)`. -/
structure StatTask where
  start_A : ℕ
  stop_A : ℕ
  start_B : ℕ
  stop_B : ℕ

structure AutoSFPartitionStrat where
  n_points : ℕ
  num_segments : ℕ

/-- `AutoSFPartitionStrat::build_StatTask` (partition.hpp:167-205).  The guard
`n_points <= 1` calls the fatal `error`; theorems carry `2 ≤ n_points`. -/
def AutoSFPartitionStrat.build_StatTask (strat : AutoSFPartitionStrat)
    (index_2D : ℕ × ℕ) : StatTask :=
  let n_dist_matrix_elements := strat.n_points - 1
  if index_2D.1 = index_2D.2 then
    let tmp := calc_chunk_slice index_2D.1 n_dist_matrix_elements strat.num_segments
    ⟨tmp.1, tmp.2 + 1, 0, 0⟩
  else
    let tmp0 := calc_chunk_slice index_2D.1 n_dist_matrix_elements strat.num_segments
    let tmp1 := calc_chunk_slice index_2D.2 n_dist_matrix_elements strat.num_segments
    ⟨tmp1.1 + 1, tmp1.2 + 1, tmp0.1, tmp0.2⟩

structure CrossSFPartitionStrat where
  n_points_A : ℕ
  num_segments_A : ℕ
  n_points_B : ℕ
  num_segments_B : ℕ

/-- `CrossSFPartitionStrat::build_StatTask` (partition.hpp:280-293). -/
def CrossSFPartitionStrat.build_StatTask (strat : CrossSFPartitionStrat)
    (index_2D : ℕ × ℕ) : StatTask :=
  let slice_A := calc_chunk_slice index_2D.1 strat.n_points_A strat.num_segments_A
  let slice_B := calc_chunk_slice index_2D.2 strat.n_points_B strat.num_segments_B
  ⟨slice_A.1, slice_A.2, slice_B.1, slice_B.2⟩

/-- The ordered pairs `(a, b)` of global point indices enumerated by
`process_TaskIt_` + `process_data` (src/vsf.cpp:184-230, 72-162) for one task
when `duplicated_points` holds: a task with the `start_B == stop_B == 0`
sentinel runs `process_data<…, true, …>` on `[start_A, stop_A)` (pairs
`a < b`); any other task runs the full Cartesian product. -/
def StatTask.enumerates_dup (t : StatTask) (a b : ℕ) : Prop :=
  if t.start_B = t.stop_B ∧ t.stop_B = 0 then
    t.start_A ≤ a ∧ a < b ∧ b < t.stop_A
  else
    (t.start_A ≤ a ∧ a < t.stop_A) ∧ (t.start_B ≤ b ∧ b < t.stop_B)

/-- The ordered pairs enumerated for one task when `duplicated_points` is
false (cross calculation): always the full Cartesian product. -/
def StatTask.enumerates_nodup (t : StatTask) (a b : ℕ) : Prop :=
  (t.start_A ≤ a ∧ a < t.stop_A) ∧ (t.start_B ≤ b ∧ b < t.stop_B)

/-- Membership of the unordered pair `{p, q}` (normalised as `p < q`) in the
pair set enumerated for an auto-strategy task. -/
def StatTask.pair_mem (t : StatTask) (p q : ℕ) : Prop :=
  p < q ∧ (t.enumerates_dup p q ∨ t.enumerates_dup q p)

/-! ### Bin search (src/libvsf/accumulators.hpp:552-564) -/

/-- A C++ `double` as compared by `identify_bin_index`: a finite value
(exact rational) or NaN / -inf / +inf. -/
inductive F64 where
  | nan : F64
  | neginf : F64
  | val : ℚ → F64
  | posinf : F64
deriving DecidableEq

/-- The IEEE-754 strict `operator<` on doubles (any comparison with NaN is
false); this is the comparison `std::lower_bound` applies to the edges. -/
def f64_lt : F64 → F64 → Bool
  | .nan, _ => false
  | _, .nan => false
  | .neginf, .neginf => false
  | .neginf, _ => true
  | _, .neginf => false
  | .val q, .val r => decide (q < r)
  | .val _, .posinf => true
  | .posinf, _ => false

/-- `identify_bin_index(x, bin_edges, nbins)`.  `std::lower_bound` over the
range `[bin_edges, bin_edges + nbins + 1)` returns the first position whose
edge is not less than `x`; for the (sorted) edge array that position is the
length of the longest prefix of edges that are `< x`, i.e. of
`takeWhile (· < x)`. -/
def identify_bin_index (x : F64) (bin_edges : List ℚ) (nbins : ℕ) : ℕ :=
  let index_p_1 :=
    ((bin_edges.take (nbins + 1)).takeWhile fun e => f64_lt (F64.val e) x).length
  if index_p_1 = 0 ∨ index_p_1 = nbins + 1 then nbins else index_p_1 - 1

/-! ### `AutoSFPartitionStrat::create` (src/libvsf/partition.hpp:212-259) -/

/-- `max_segments = (n_points <= 4) ? 1 : (n_points - 1) / 2`. -/
def AutoSFPartitionStrat.max_segments (n_points : ℕ) : ℕ :=
  if n_points ≤ 4 then 1 else (n_points - 1) / 2

/-- The segment-search loop of `AutoSFPartitionStrat::create`:
`for (cur = 2;; cur++) { if (cur >= max_segments) { num = max_segments;
break; } if (num_dist_array_chunks_auto(cur) >= 3*nproc) { num = cur;
break; } }`, entered at `cur`. -/
def seg_loop (nproc max_segments cur : ℕ) : ℕ :=
  if h : max_segments ≤ cur then max_segments
  else if 3 * nproc ≤ num_dist_array_chunks_auto cur then cur
  else seg_loop nproc max_segments (cur + 1)
termination_by max_segments - cur
decreasing_by omega

/-- `AutoSFPartitionStrat::create(nproc, n_points, skip_small_prob_check)`.
The three `error(...)` guards are modelled by `none`, as is the fatal
`"too many segments"` branch. -/
def AutoSFPartitionStrat.create (nproc n_points : ℕ) (skip_small_prob_check : Bool) :
    Option AutoSFPartitionStrat :=
  if nproc = 0 then none
  else if n_points ≤ 1 then none
  else if 60 < nproc then none
  else if (skip_small_prob_check = false ∧ n_points ≤ 1000) ∨ nproc = 1 ∨
      AutoSFPartitionStrat.max_segments n_points = 1 then
    some ⟨n_points, 1⟩
  else if n_points <
      seg_loop nproc (AutoSFPartitionStrat.max_segments n_points) 2 * 2 + 1 then
    none
  else some ⟨n_points, seg_loop nproc (AutoSFPartitionStrat.max_segments n_points) 2⟩

/-! ### Moment accumulators (src/libvsf/accumulators.hpp:54-407) -/

/-- State of `CentralMomentAccum<Order, int64_t>` (unweighted): the entry
count and the `double moment_accums[Order]` array (mean / cur_M2 / cur_M3
at indices 0 / 1 / 2). -/
structure CentralMomentAccum where
  count : ℤ
  moment_accums : List ℚ
deriving DecidableEq

/-- `CentralMomentAccum<Order, int64_t>::add_entry(val)`
(accumulators.hpp:160-180); `Order` is the template parameter, the
`constexpr (Order > 1)` / `(Order > 2)` guards become `if` on `Order`. -/
def CentralMomentAccum.add_entry (Order : ℕ) (a : CentralMomentAccum) (val : ℚ) :
    CentralMomentAccum :=
  let count : ℤ := a.count + 1
  let val_minus_last_mean := val - a.moment_accums.getD 0 0
  let delta_div_n := val_minus_last_mean / (count : ℚ)
  let ma := a.moment_accums.set 0 (a.moment_accums.getD 0 0 + delta_div_n)
  if 1 < Order then
    let val_minus_cur_mean := val - ma.getD 0 0
    let delta2_nm1_div_n := val_minus_last_mean * val_minus_cur_mean
    let ma2 :=
      if 2 < Order then
        ma.set 2 (ma.getD 2 0 +
          (delta2_nm1_div_n * delta_div_n * ((count : ℚ) - 2) -
            3 * ma.getD 1 0 * delta_div_n))
      else ma
    ⟨count, ma2.set 1 (ma2.getD 1 0 + delta2_nm1_div_n)⟩
  else ⟨count, ma⟩

/-- `CentralMomentAccum<Order, int64_t>::add_entry(val, weight)`
(accumulators.hpp:182-186): for `CountT == int64_t` "we ignore the weight"
and delegate to the one-argument overload. -/
def CentralMomentAccum.add_entry_with_weight (Order : ℕ) (a : CentralMomentAccum)
    (val weight : ℚ) : CentralMomentAccum :=
  a.add_entry Order val

/-- State of `OriginMomentAccum<Order, int64_t>` (unweighted). -/
structure OriginMomentAccum where
  count : ℤ
  moment_accums : List ℚ
deriving DecidableEq

/-- `OriginMomentAccum<Order, int64_t>::add_entry(val)`
(accumulators.hpp:336-349).  The source accumulates
`val_raised_to_ip1 *= val` across loop iterations; in exact arithmetic the
value used at iteration `i` is `val ^ (i+1)`. -/
def OriginMomentAccum.add_entry (Order : ℕ) (a : OriginMomentAccum) (val : ℚ) :
    OriginMomentAccum :=
  let count : ℤ := a.count + 1
  let ma := (List.range Order).foldl
    (fun (m : List ℚ) i =>
      let val_raised_to_ip1 := val ^ (i + 1)
      let delta := val_raised_to_ip1 - m.getD i 0
      m.set i (m.getD i 0 + delta / (count : ℚ)))
    a.moment_accums
  ⟨count, ma⟩

/-- `OriginMomentAccum<Order, int64_t>::add_entry(val, weight)`
(accumulators.hpp:351-354): "we ignore the weight". -/
def OriginMomentAccum.add_entry_with_weight (Order : ℕ) (a : OriginMomentAccum)
    (val weight : ℚ) : OriginMomentAccum :=
  a.add_entry Order val

/-- `consolidate_mean_` (accumulators.hpp:25-41), the parallel
(weighted-average) mean combine. -/
def consolidate_mean_ (primary_mean primary_weight other_mean other_weight
    total_weight : ℚ) : ℚ :=
  (primary_weight * primary_mean + other_weight * other_mean) / total_weight

/-- State of `CentralMomentAccum<Order, double>` (weighted): `count` is the
running weight sum. -/
structure WeightedCentralMomentAccum where
  count : ℚ
  moment_accums : List ℚ
deriving DecidableEq

/-- The default constructor `CentralMomentAccum()` (accumulators.hpp:156-158):
zero count, `moment_accums` filled with zeros. -/
def WeightedCentralMomentAccum.init (Order : ℕ) : WeightedCentralMomentAccum :=
  ⟨0, List.replicate Order 0⟩

/-- `CentralMomentAccum<Order, double>::add_entry(val, weight)`
(accumulators.hpp:182-197).  `weight_sum + (weight_sum == 0)` - the divisor
is forced to 1 when the updated weight sum is zero. -/
def WeightedCentralMomentAccum.add_entry (Order : ℕ) (a : WeightedCentralMomentAccum)
    (val weight : ℚ) : WeightedCentralMomentAccum :=
  let weight_sum := a.count + weight
  let delta := val - a.moment_accums.getD 0 0
  let new_mean := a.moment_accums.getD 0 0 +
    (delta * weight) / (weight_sum + (if weight_sum = 0 then 1 else 0))
  let ma := a.moment_accums.set 0 new_mean
  if 1 < Order then
    let val_minus_cur_mean := val - ma.getD 0 0
    ⟨weight_sum, ma.set 1 (ma.getD 1 0 + weight * delta * val_minus_cur_mean)⟩
  else ⟨weight_sum, ma⟩

/-- `CentralMomentAccum<Order, double>::consolidate_with_other`
(accumulators.hpp:199-243).  The two `count == 1 && is_same_v<CountT,
int64_t>` fast paths are statically false for `CountT == double` and are
omitted; the remaining branches are the two zero-count fast paths and the
general (Chan et al.) combine. -/
def WeightedCentralMomentAccum.consolidate_with_other (Order : ℕ)
    (a other : WeightedCentralMomentAccum) : WeightedCentralMomentAccum :=
  if a.count = 0 then other
  else if other.count = 0 then a
  else
    let totcount := a.count + other.count
    let ma :=
      if 1 < Order then
        let delta := other.moment_accums.getD 0 0 - a.moment_accums.getD 0 0
        let delta2_nprod_div_ntot := delta * delta * (a.count * other.count / totcount)
        let ma3 :=
          if 2 < Order then
            let term1 := delta2_nprod_div_ntot * (other.count - a.count)
            let term2 := 3 * (a.count * other.moment_accums.getD 1 0 -
              other.count * a.moment_accums.getD 1 0)
            a.moment_accums.set 2 (a.moment_accums.getD 2 0 +
              other.moment_accums.getD 2 0 + delta * (term1 + term2) / totcount)
          else a.moment_accums
        ma3.set 1 (ma3.getD 1 0 + other.moment_accums.getD 1 0 + delta2_nprod_div_ntot)
      else a.moment_accums
    ⟨totcount, ma.set 0 (consolidate_mean_ (a.moment_accums.getD 0 0) a.count
      (other.moment_accums.getD 0 0) other.count totcount)⟩

/-- The states a weighted central-moment accumulator can reach from the
freshly-initialised state through `add_entry` with *nonnegative* weights
and `consolidate_with_other` with partners reached the same way. -/
inductive WeightedCentralMomentAccum.Reachable (Order : ℕ) :
    WeightedCentralMomentAccum → Prop where
  | init : WeightedCentralMomentAccum.Reachable Order
      (WeightedCentralMomentAccum.init Order)
  | add (a : WeightedCentralMomentAccum) (val weight : ℚ)
      (ha : WeightedCentralMomentAccum.Reachable Order a) (hw : 0 ≤ weight) :
      WeightedCentralMomentAccum.Reachable Order (a.add_entry Order val weight)
  | merge (a b : WeightedCentralMomentAccum)
      (ha : WeightedCentralMomentAccum.Reachable Order a)
      (hb : WeightedCentralMomentAccum.Reachable Order b) :
      WeightedCentralMomentAccum.Reachable Order (a.consolidate_with_other Order b)

/-! ### Histogram accumulator collections
(src/libvsf/accumulators.hpp:566-744) -/

/-- State of `GenericHistogramAccumCollection<T>`: counts are stored at
index `data_bin_index + spatial_bin_index * n_data_bins`. -/
structure GenericHistogramAccumCollection (T : Type) where
  n_spatial_bins : ℕ
  n_data_bins : ℕ
  bin_counts : List T
  data_bin_edges : List ℚ
deriving DecidableEq

/-- `GenericHistogramAccumCollection<int64_t>::add_entry(spatial_bin_index,
val)` (accumulators.hpp:623-635): bin `val` among the data-bin edges and
increment the count if it landed inside. -/
def GenericHistogramAccumCollection.add_entry
    (c : GenericHistogramAccumCollection ℤ) (spatial_bin_index : ℕ) (val : ℚ) :
    GenericHistogramAccumCollection ℤ :=
  let data_bin_index := identify_bin_index (F64.val val) c.data_bin_edges c.n_data_bins
  if data_bin_index < c.n_data_bins then
    let i := data_bin_index + spatial_bin_index * c.n_data_bins
    { c with bin_counts := c.bin_counts.set i (c.bin_counts.getD i 0 + 1) }
  else c

/-- `GenericHistogramAccumCollection<T>::consolidate_with_other`
(accumulators.hpp:653-667): the shape pair is compared, then the counts are
summed element-wise over `[0, bin_counts_.size())`; the fatal mismatch
`error` is modelled by `none`.  The `data_bin_edges_` play no role
("going to simply assume that contents of data_bin_edges_ are
consistent"). -/
def GenericHistogramAccumCollection.consolidate_with_other {T : Type} [Add T]
    [Inhabited T] (c other : GenericHistogramAccumCollection T) :
    Option (GenericHistogramAccumCollection T) :=
  if other.n_spatial_bins ≠ c.n_spatial_bins ∨ other.n_data_bins ≠ c.n_data_bins then
    none
  else
    let summed := (List.range c.bin_counts.length).map
      fun i => c.bin_counts.getD i default + other.bin_counts.getD i default
    some { c with bin_counts := summed }

/-! ### The pair kernel `process_data` with a histogram accumulator
(src/vsf.cpp:72-162, correlate branch lines 90-125) -/

/-- `calc_dist_sqr` (src/vsf.cpp:34-41). -/
def calc_dist_sqr (x0 x1 y0 y1 z0 z1 : ℚ) : ℚ :=
  let dx := x0 - x1
  let dy := y0 - y1
  let dz := z0 - z1
  dx * dx + dy * dy + dz * dz

/-- The index pairs `(i_a, i_b)` enumerated by the two nested loops of
`process_data`: `i_a ∈ [0, n_points_a)` and
`i_b ∈ [i_b_start, n_points_b)` with
`i_b_start = duplicated_points ? i_a + 1 : 0`. -/
def pair_list (n_points_a n_points_b : ℕ) (duplicated_points : Bool) :
    List (ℕ × ℕ) :=
  (List.range n_points_a).flatMap fun i_a =>
    ((List.range n_points_b).drop (if duplicated_points then i_a + 1 else 0)).map
      fun i_b => (i_a, i_b)

/-- One iteration of the inner loop of the correlate branch of
`process_data` (src/vsf.cpp:105-125), applied to the histogram accumulator
collection: compute `dist_sqr` from the strided position lanes and
`stat_value = scalar_a * scalar_b`, locate the (squared) spatial bin, and
dispatch `add_entry` when the bin index is below `nbins`. -/
def process_pair_correlate (pos_a values_a : ℕ → ℚ) (stride_a : ℕ)
    (pos_b values_b : ℕ → ℚ) (stride_b : ℕ) (dist_sqr_bin_edges : List ℚ)
    (nbins : ℕ) (accumulators : GenericHistogramAccumCollection ℤ)
    (p : ℕ × ℕ) : GenericHistogramAccumCollection ℤ :=
  let dist_sqr := calc_dist_sqr (pos_a p.1) (pos_b p.2)
    (pos_a (p.1 + stride_a)) (pos_b (p.2 + stride_b))
    (pos_a (p.1 + 2 * stride_a)) (pos_b (p.2 + 2 * stride_b))
  let stat_value := values_a p.1 * values_b p.2
  let bin_ind := identify_bin_index (F64.val dist_sqr) dist_sqr_bin_edges nbins
  if bin_ind < nbins then accumulators.add_entry bin_ind stat_value else accumulators

/-- The correlate branch of `process_data` for a histogram accumulator
collection: fold the per-pair step over all enumerated pairs. -/
def process_data_correlate (pos_a values_a : ℕ → ℚ) (stride_a : ℕ)
    (pos_b values_b : ℕ → ℚ) (stride_b : ℕ) (n_points_a n_points_b : ℕ)
    (dist_sqr_bin_edges : List ℚ) (nbins : ℕ) (duplicated_points : Bool)
    (accumulators : GenericHistogramAccumCollection ℤ) :
    GenericHistogramAccumCollection ℤ :=
  (pair_list n_points_a n_points_b duplicated_points).foldl
    (process_pair_correlate pos_a values_a stride_a pos_b values_b stride_b
      dist_sqr_bin_edges nbins) accumulators

/-- Whether a pair's squared distance lands in a spatial bin
(`bin_ind < nbins`). -/
def pair_in_distance_range (pos_a : ℕ → ℚ) (stride_a : ℕ) (pos_b : ℕ → ℚ)
    (stride_b : ℕ) (dist_sqr_bin_edges : List ℚ) (nbins : ℕ) (p : ℕ × ℕ) : Bool :=
  identify_bin_index (F64.val (calc_dist_sqr (pos_a p.1) (pos_b p.2)
    (pos_a (p.1 + stride_a)) (pos_b (p.2 + stride_b))
    (pos_a (p.1 + 2 * stride_a)) (pos_b (p.2 + 2 * stride_b))))
    dist_sqr_bin_edges nbins < nbins

/-- Whether a pair is actually counted by the histogram: its squared
distance lands in a spatial bin *and* its statistic value
`scalar_a * scalar_b` lands in a data bin. -/
def pair_counted_by_histogram (pos_a values_a : ℕ → ℚ) (stride_a : ℕ)
    (pos_b values_b : ℕ → ℚ) (stride_b : ℕ) (dist_sqr_bin_edges : List ℚ)
    (nbins : ℕ) (data_bin_edges : List ℚ) (n_data_bins : ℕ) (p : ℕ × ℕ) : Bool :=
  pair_in_distance_range pos_a stride_a pos_b stride_b dist_sqr_bin_edges nbins p &&
    (identify_bin_index (F64.val (values_a p.1 * values_b p.2)) data_bin_edges
      n_data_bins < n_data_bins)

/-! ### Scalar accumulator collections: serialization
(src/libvsf/accumulators.hpp:421-536) -/

/-- `ScalarAccumCollection<Accum>::copy_vals(out_vals)`
(accumulators.hpp:502-513): for each spatial bin `i` and value index `j`,
`out_vals[i + j * n_bins] = accum_list_[i].access<T>(j)`.  The buffer is the
list indexed by `k = i + j * n_bins`, `k < num_dtype_vals * n_bins`.
`acc` is the indexed `access<T>` getter of the accumulator type, `a0` a
throwaway default (never read for in-range indices). -/
def ScalarAccumCollection.copy_vals {α β : Type} (num_dtype_vals : ℕ)
    (acc : α → ℕ → β) (a0 : α) (accum_list : List α) : List β :=
  (List.range (num_dtype_vals * accum_list.length)).map fun k =>
    acc (accum_list.getD (k % accum_list.length) a0) (k / accum_list.length)

/-- `ScalarAccumCollection<Accum>::import_vals(in_vals)`
(accumulators.hpp:520-530): for each spatial bin `i` and value index `j`,
`accum_list_[i].access<T>(j) = in_vals[i + j * n_bins]`; `setv` is the
indexed setter view of the `access<T>` reference. -/
def ScalarAccumCollection.import_vals {α β : Type} (num_dtype_vals : ℕ)
    (setv : α → ℕ → β → α) (a0 : α) (b0 : β) (accum_list : List α)
    (in_vals : List β) : List α :=
  (List.range accum_list.length).map fun i =>
    (List.range num_dtype_vals).foldl
      (fun a j => setv a j (in_vals.getD (i + j * accum_list.length) b0))
      (accum_list.getD i a0)

/-- `CentralMomentAccum<Order, int64_t>::access<int64_t>(i)`: the only
integer value is `count` (index 0; other indices are a fatal error). -/
def CentralMomentAccum.access_i64 (a : CentralMomentAccum) (i : ℕ) : ℤ :=
  a.count

/-- Setter view of the non-const `access<int64_t>` reference. -/
def CentralMomentAccum.set_i64 (a : CentralMomentAccum) (i : ℕ) (v : ℤ) :
    CentralMomentAccum :=
  { a with count := v }

/-- `CentralMomentAccum<Order, int64_t>::access<double>(i)`:
`moment_accums[i]` for `i < Order`. -/
def CentralMomentAccum.access_f64 (a : CentralMomentAccum) (i : ℕ) : ℚ :=
  a.moment_accums.getD i 0

/-- Setter view of the non-const `access<double>` reference. -/
def CentralMomentAccum.set_f64 (a : CentralMomentAccum) (i : ℕ) (v : ℚ) :
    CentralMomentAccum :=
  { a with moment_accums := a.moment_accums.set i v }

/-- `OriginMomentAccum<Order, int64_t>::access<int64_t>(i)`. -/
def OriginMomentAccum.access_i64 (a : OriginMomentAccum) (i : ℕ) : ℤ :=
  a.count

/-- Setter view. -/
def OriginMomentAccum.set_i64 (a : OriginMomentAccum) (i : ℕ) (v : ℤ) :
    OriginMomentAccum :=
  { a with count := v }

/-- `OriginMomentAccum<Order, int64_t>::access<double>(i)`. -/
def OriginMomentAccum.access_f64 (a : OriginMomentAccum) (i : ℕ) : ℚ :=
  a.moment_accums.getD i 0

/-- Setter view. -/
def OriginMomentAccum.set_f64 (a : OriginMomentAccum) (i : ℕ) (v : ℚ) :
    OriginMomentAccum :=
  { a with moment_accums := a.moment_accums.set i v }

/-- `CentralMomentAccum<Order, double>::access<double>(i)`: index 0 is the
weight sum (`count`), index `i ≥ 1` is `moment_accums[i - 1]`. -/
def WeightedCentralMomentAccum.access_f64 (a : WeightedCentralMomentAccum)
    (i : ℕ) : ℚ :=
  if i = 0 then a.count else a.moment_accums.getD (i - 1) 0

/-- Setter view. -/
def WeightedCentralMomentAccum.set_f64 (a : WeightedCentralMomentAccum) (i : ℕ)
    (v : ℚ) : WeightedCentralMomentAccum :=
  if i = 0 then { a with count := v }
  else { a with moment_accums := a.moment_accums.set (i - 1) v }

/-- State of `OriginMomentAccum<Order, double>` (weighted): the `access`
layout is the same as for the weighted central-moment accumulator. -/
structure WeightedOriginMomentAccum where
  count : ℚ
  moment_accums : List ℚ
deriving DecidableEq

/-- `OriginMomentAccum<Order, double>::access<double>(i)`. -/
def WeightedOriginMomentAccum.access_f64 (a : WeightedOriginMomentAccum)
    (i : ℕ) : ℚ :=
  if i = 0 then a.count else a.moment_accums.getD (i - 1) 0

/-- Setter view. -/
def WeightedOriginMomentAccum.set_f64 (a : WeightedOriginMomentAccum) (i : ℕ)
    (v : ℚ) : WeightedOriginMomentAccum :=
  if i = 0 then { a with count := v }
  else { a with moment_accums := a.moment_accums.set (i - 1) v }

/-- `GenericHistogramAccumCollection<T>::copy_vals` for the matching buffer
type (accumulators.hpp:692-706): a plain copy of `bin_counts_`. -/
def GenericHistogramAccumCollection.copy_vals {T : Type}
    (c : GenericHistogramAccumCollection T) : List T :=
  c.bin_counts

/-- `GenericHistogramAccumCollection<T>::import_vals` for the matching
buffer type (accumulators.hpp:712-725): overwrite `bin_counts_[i]` with
`in_vals[i]` for `i < bin_counts_.size()`. -/
def GenericHistogramAccumCollection.import_vals {T : Type} [Inhabited T]
    (c : GenericHistogramAccumCollection T) (in_vals : List T) :
    GenericHistogramAccumCollection T :=
  let imported := (List.range c.bin_counts.length).map fun i => in_vals.getD i default
  { c with bin_counts := imported }

/-! ### Compound accumulator (src/libvsf/compound_accumulator.hpp) -/

/-- A representative instantiation of
`CompoundAccumCollection<std::tuple<…>>`: an ordered bundle of two scalar
collections (here two central-moment collections). -/
structure CompoundAccumCollection where
  member0 : List CentralMomentAccum
  member1 : List CentralMomentAccum

/-- `CompoundAccumCollection::copy_vals` (compound_accumulator.hpp:103-114)
through `CopyValsHelper_` (34-57): each member writes its values at the
running offset, which advances by `n_spatial_bins * Σ elems_per_bin` per
member, so the buffer is the concatenation of the member buffers in
declared order.  `n0`/`n1` are the per-member float-value counts. -/
def CompoundAccumCollection.copy_vals_f64 (n0 n1 : ℕ)
    (c : CompoundAccumCollection) : List ℚ :=
  ScalarAccumCollection.copy_vals n0 CentralMomentAccum.access_f64 ⟨0, []⟩
      c.member0 ++
    ScalarAccumCollection.copy_vals n1 CentralMomentAccum.access_f64 ⟨0, []⟩
      c.member1

/-- `CompoundAccumCollection::import_vals` (compound_accumulator.hpp:136-140)
is a dummy that unconditionally calls `error("Not Implemented")` - a fatal
exit, modelled `none`. -/
def CompoundAccumCollection.import_vals {β : Type} (c : CompoundAccumCollection)
    (in_vals : List β) : Option CompoundAccumCollection :=
  none

/-- C7: `calc_vsf_props` rejects (returns `false`, before any write to the
output buffers) exactly when `nbins == 0`, or `points_a` or the resolved
`points_b` is not three-dimensional, or positions/values of A are null, or
`pairwise_op` is neither "sf" nor "correlate"; otherwise it returns `true`. -/
theorem calc_vsf_props_accepts_iff (points_a points_b : PointProps)
    (pairwise_op : String) (nbins : ℕ) :
    calc_vsf_props_accepts points_a points_b pairwise_op nbins = false ↔
      (nbins = 0 ∨ points_a.n_spatial_dims ≠ 3 ∨
        (if points_b.positions.isNone && points_b.values.isNone then points_a
          else points_b).n_spatial_dims ≠ 3 ∨
        points_a.positions.isNone = true ∨ points_a.values.isNone = true ∨
        (pairwise_op ≠ "sf" ∧ pairwise_op ≠ "correlate")) := by
  unfold calc_vsf_props_accepts
  split_ifs <;> simp_all <;> tauto

/-- C8: evaluating the embedded `stat_name` guard chain at the failing input
`Order = 3, CountT = int64_t` shows the code does not produce "cmoment3"
(it lands in the `static_assert` branch, modelled `none`), while the
`Order = 2` half of the claim does hold ("variance"). -/
theorem CentralMomentAccum.stat_name_order3_bug :
    CentralMomentAccum.stat_name 3 false = none ∧
      CentralMomentAccum.stat_name 2 false = some "variance" := by
  constructor <;> rfl

/-! ### Properties of `calc_chunk_slice` -/

theorem chunk_start_mono (L S : ℕ) : Monotone (chunk_start L S) :=
  monotone_nat_of_le_succ fun _ => Nat.le_add_right _ _

theorem chunk_start_closed (L S i : ℕ) :
    chunk_start L S i = i * (L / S) + min i (L % S) := by
  induction i with
  | zero => simp [chunk_start]
  | succ n ih =>
    show chunk_start L S n + calc_chunk_size L S n = _
    rw [ih]
    unfold calc_chunk_size
    rw [Nat.succ_mul]
    split_ifs with h <;> omega

/-- The `num_chunks` chunks tile `[0, array_len)`:
the final `stop_index` is `array_len`. -/
theorem chunk_start_top (L S : ℕ) (hS : 0 < S) : chunk_start L S S = L := by
  rw [chunk_start_closed]
  have h1 : L % S < S := Nat.mod_lt _ hS
  have h2 : S * (L / S) + L % S = L := Nat.div_add_mod L S
  have h3 : min S (L % S) = L % S := by omega
  rw [h3]
  omega

/-- Every index `x < array_len` lies in some chunk. -/
theorem chunk_start_exists (L S : ℕ) (hS : 0 < S) (x : ℕ) (hx : x < L) :
    ∃ i, i < S ∧ chunk_start L S i ≤ x ∧ x < chunk_start L S (i + 1) := by
  have key : ∀ n, x < chunk_start L S n →
      ∃ i, i < n ∧ chunk_start L S i ≤ x ∧ x < chunk_start L S (i + 1) := by
    intro n
    induction n with
    | zero => intro h; simp [chunk_start] at h
    | succ m ih =>
      intro h
      rcases lt_or_ge x (chunk_start L S m) with h' | h'
      · obtain ⟨i, hi1, hi2⟩ := ih h'
        exact ⟨i, by omega, hi2⟩
      · exact ⟨m, by omega, h', h⟩
  exact key S (by rw [chunk_start_top L S hS]; exact hx)

/-- Chunks are mutually disjoint: an index lies in at most one chunk. -/
theorem chunk_start_uniq (L S i j x : ℕ)
    (hi1 : chunk_start L S i ≤ x) (hi2 : x < chunk_start L S (i + 1))
    (hj1 : chunk_start L S j ≤ x) (hj2 : x < chunk_start L S (j + 1)) : i = j := by
  by_contra hne
  rcases Nat.lt_or_ge i j with h | h
  · have := chunk_start_mono L S (show i + 1 ≤ j from h)
    omega
  · have hj' : j < i := by omega
    have := chunk_start_mono L S (show j + 1 ≤ i from hj')
    omega

/-- When `num_chunks ≤ array_len` every chunk is nonempty. -/
theorem chunk_start_lt_succ (L S i : ℕ) (hS : 0 < S) (h : S ≤ L) :
    chunk_start L S i < chunk_start L S (i + 1) := by
  have h1 : 1 ≤ L / S := (Nat.one_le_div_iff hS).mpr h
  have h2 : chunk_start L S (i + 1) = chunk_start L S i + calc_chunk_size L S i := rfl
  have h3 : 1 ≤ calc_chunk_size L S i := by
    unfold calc_chunk_size
    split_ifs <;> omega
  omega

/-- Characterisation of auto-task pair membership: the unordered pair
`{p, q}` (normalised `p < q`) is enumerated by the task at 2D index `(i, j)`
exactly when distance-matrix row `p` lies in chunk `i` and column `q - 1`
lies in chunk `j`. -/
theorem auto_pair_mem_iff (N S p q i j : ℕ) (hS : 1 ≤ S) (hN : 2 * S + 1 ≤ N)
    (hij : i ≤ j) (hj : j < S) :
    (AutoSFPartitionStrat.build_StatTask ⟨N, S⟩ (i, j)).pair_mem p q ↔
      (p < q ∧
        (chunk_start (N - 1) S i ≤ p ∧ p < chunk_start (N - 1) S (i + 1)) ∧
        (chunk_start (N - 1) S j ≤ q - 1 ∧ q - 1 < chunk_start (N - 1) S (j + 1))) := by
  have hSL : S ≤ N - 1 := by omega
  by_cases heq : i = j
  · subst heq
    have htask : AutoSFPartitionStrat.build_StatTask ⟨N, S⟩ (i, i) =
        ⟨chunk_start (N - 1) S i, chunk_start (N - 1) S (i + 1) + 1, 0, 0⟩ := by
      unfold AutoSFPartitionStrat.build_StatTask
      simp [calc_chunk_slice]
    rw [htask]
    unfold StatTask.pair_mem StatTask.enumerates_dup
    simp only [and_true, and_self, if_true, eq_self_iff_true, if_pos]
    omega
  · have hlt : i < j := by omega
    have hne : chunk_start (N - 1) S i < chunk_start (N - 1) S (i + 1) :=
      chunk_start_lt_succ _ _ _ hS hSL
    have hmono : chunk_start (N - 1) S (i + 1) ≤ chunk_start (N - 1) S j :=
      chunk_start_mono _ _ (by omega)
    have htask : AutoSFPartitionStrat.build_StatTask ⟨N, S⟩ (i, j) =
        ⟨chunk_start (N - 1) S j + 1, chunk_start (N - 1) S (j + 1) + 1,
          chunk_start (N - 1) S i, chunk_start (N - 1) S (i + 1)⟩ := by
      unfold AutoSFPartitionStrat.build_StatTask
      simp [calc_chunk_slice, heq]
    rw [htask]
    unfold StatTask.pair_mem StatTask.enumerates_dup
    dsimp only
    split_ifs with hcond
    · omega
    · omega

/-- Cross-task pair membership is chunk membership on each axis. -/
theorem cross_pair_mem_iff (NA SA NB SB a b i j : ℕ) :
    (CrossSFPartitionStrat.build_StatTask ⟨NA, SA, NB, SB⟩ (i, j)).enumerates_nodup a b ↔
      ((chunk_start NA SA i ≤ a ∧ a < chunk_start NA SA (i + 1)) ∧
        (chunk_start NB SB j ≤ b ∧ b < chunk_start NB SB (j + 1))) := Iff.rfl

/-- C1: for every valid auto strategy the unordered pairs enumerated over
the tasks of all 2D indices `(i, j)`, `i ≤ j < S`, cover each pair
`p < q < N` exactly once (so the task pair sets are pairwise disjoint and
their union is the full auto pair set); for every valid cross strategy the
tasks at indices `(i, j) ∈ [0,S_A) × [0,S_B)` cover each ordered pair of
`[0, N_A) × [0, N_B)` exactly once. -/
theorem build_StatTask_tasks_partition_pairs :
    (∀ N S p q : ℕ, 2 ≤ N → 1 ≤ S → 2 * S + 1 ≤ N →
      ((p < q ∧ q < N) ↔
        ∃! ij : ℕ × ℕ, (ij.1 ≤ ij.2 ∧ ij.2 < S) ∧
          (AutoSFPartitionStrat.build_StatTask ⟨N, S⟩ ij).pair_mem p q)) ∧
    (∀ NA SA NB SB a b : ℕ, 1 ≤ SA → SA ≤ NA → 1 ≤ SB → SB ≤ NB →
      ((a < NA ∧ b < NB) ↔
        ∃! ij : ℕ × ℕ, (ij.1 < SA ∧ ij.2 < SB) ∧
          (CrossSFPartitionStrat.build_StatTask ⟨NA, SA, NB, SB⟩ ij).enumerates_nodup a b)) := by
  constructor
  · intro N S p q hN hS hbound
    constructor
    · rintro ⟨hpq, hqN⟩
      have hp : p < N - 1 := by omega
      have hq : q - 1 < N - 1 := by omega
      obtain ⟨i, hiS, hi1, hi2⟩ := chunk_start_exists (N - 1) S hS p hp
      obtain ⟨j, hjS, hj1, hj2⟩ := chunk_start_exists (N - 1) S hS (q - 1) hq
      have hij : i ≤ j := by
        by_contra hc
        have := chunk_start_mono (N - 1) S (show j + 1 ≤ i by omega)
        omega
      refine ⟨(i, j), ⟨⟨hij, hjS⟩, ?_⟩, ?_⟩
      · exact (auto_pair_mem_iff N S p q i j hS hbound hij hjS).mpr
          ⟨hpq, ⟨hi1, hi2⟩, ⟨hj1, hj2⟩⟩
      · rintro ⟨i', j'⟩ ⟨⟨hij', hj'S⟩, hmem⟩
        rw [auto_pair_mem_iff N S p q i' j' hS hbound hij' hj'S] at hmem
        obtain ⟨-, ⟨hi1', hi2'⟩, ⟨hj1', hj2'⟩⟩ := hmem
        have e1 : i' = i := chunk_start_uniq (N - 1) S i' i p hi1' hi2' hi1 hi2
        have e2 : j' = j := chunk_start_uniq (N - 1) S j' j (q - 1) hj1' hj2' hj1 hj2
        rw [e1, e2]
    · rintro ⟨⟨i, j⟩, ⟨⟨hij, hjS⟩, hmem⟩, -⟩
      rw [auto_pair_mem_iff N S p q i j hS hbound hij hjS] at hmem
      have htop : chunk_start (N - 1) S S = N - 1 := chunk_start_top _ _ hS
      have hmono : chunk_start (N - 1) S (j + 1) ≤ chunk_start (N - 1) S S :=
        chunk_start_mono _ _ (by omega)
      omega
  · intro NA SA NB SB a b hSA hNA hSB hNB
    constructor
    · rintro ⟨ha, hb⟩
      obtain ⟨i, hiS, hi1, hi2⟩ := chunk_start_exists NA SA hSA a ha
      obtain ⟨j, hjS, hj1, hj2⟩ := chunk_start_exists NB SB hSB b hb
      refine ⟨(i, j), ⟨⟨hiS, hjS⟩, ?_⟩, ?_⟩
      · exact (cross_pair_mem_iff NA SA NB SB a b i j).mpr ⟨⟨hi1, hi2⟩, ⟨hj1, hj2⟩⟩
      · rintro ⟨i', j'⟩ ⟨⟨hi'S, hj'S⟩, hmem⟩
        rw [cross_pair_mem_iff NA SA NB SB a b i' j'] at hmem
        obtain ⟨⟨hi1', hi2'⟩, ⟨hj1', hj2'⟩⟩ := hmem
        have e1 : i' = i := chunk_start_uniq NA SA i' i a hi1' hi2' hi1 hi2
        have e2 : j' = j := chunk_start_uniq NB SB j' j b hj1' hj2' hj1 hj2
        rw [e1, e2]
    · rintro ⟨⟨i, j⟩, ⟨⟨hiS, hjS⟩, hmem⟩, -⟩
      rw [cross_pair_mem_iff NA SA NB SB a b i j] at hmem
      have htopA : chunk_start NA SA SA = NA := chunk_start_top _ _ hSA
      have htopB : chunk_start NB SB SB = NB := chunk_start_top _ _ hSB
      have hmA : chunk_start NA SA (i + 1) ≤ chunk_start NA SA SA :=
        chunk_start_mono _ _ (by omega)
      have hmB : chunk_start NB SB (j + 1) ≤ chunk_start NB SB SB :=
        chunk_start_mono _ _ (by omega)
      omega

/-! generic facts about `takeWhile` prefix lengths -/

theorem takeWhile_length_le {α : Type} (p : α → Bool) (l : List α) :
    (l.takeWhile p).length ≤ l.length := by
  induction l with
  | nil => simp [List.takeWhile]
  | cons a t ih =>
    by_cases hpa : p a
    · simp only [List.takeWhile, hpa, List.length_cons]
      omega
    · simp [List.takeWhile, hpa]

theorem takeWhile_getD_true {α : Type} (p : α → Bool) (d : α) :
    ∀ (l : List α) (i : ℕ), i < (l.takeWhile p).length → p (l.getD i d) = true := by
  intro l
  induction l with
  | nil => intro i h; simp [List.takeWhile] at h
  | cons a t ih =>
    intro i h
    by_cases hpa : p a
    · cases i with
      | zero => simpa using hpa
      | succ n =>
        simp only [List.takeWhile, hpa, List.length_cons] at h
        exact ih n (by omega)
    · simp [List.takeWhile, hpa] at h

theorem takeWhile_getD_stop {α : Type} (p : α → Bool) (d : α) :
    ∀ l : List α, (l.takeWhile p).length < l.length →
      p (l.getD (l.takeWhile p).length d) = false := by
  intro l
  induction l with
  | nil => intro h; simp at h
  | cons a t ih =>
    intro h
    by_cases hpa : p a
    · simp only [List.takeWhile, hpa, List.length_cons] at h ⊢
      exact ih (by omega)
    · simp only [List.takeWhile, hpa] at h ⊢
      simpa using hpa

/-- The predicate `edge < x` is downward closed along increasing edges. -/
theorem f64_lt_edge_downward (x : F64) (q r : ℚ) (hqr : q < r)
    (h : f64_lt (F64.val r) x = true) : f64_lt (F64.val q) x = true := by
  cases x with
  | nan => simp [f64_lt] at h
  | neginf => simp [f64_lt] at h
  | posinf => rfl
  | val s =>
    simp only [f64_lt, decide_eq_true_eq] at h ⊢
    exact lt_trans hqr h

/-- C2 (amended): for `nbins ≥ 1` and strictly increasing edges
`e_0 < … < e_nbins`, `identify_bin_index` implements *left-open,
right-closed* bins: it returns `i < nbins` exactly when
`e_i < x ∧ ¬(e_{i+1} < x)` in the IEEE order (for finite `x`:
`e_i < x ≤ e_{i+1}`), and it returns `nbins` exactly when `¬(e_0 < x)`
(covering `x ≤ e_0`, `x = -inf` and `x = NaN`) or `e_nbins < x`
(covering `x > e_nbins` and `x = +inf`). -/
theorem identify_bin_index_bins_left_open (x : F64) (bin_edges : List ℚ) (nbins : ℕ)
    (hlen : bin_edges.length = nbins + 1) (hn : 1 ≤ nbins)
    (hmono : bin_edges.Pairwise (· < ·)) :
    (∀ i, i < nbins →
      (identify_bin_index x bin_edges nbins = i ↔
        (f64_lt (F64.val (bin_edges.getD i 0)) x = true ∧
          f64_lt (F64.val (bin_edges.getD (i + 1) 0)) x = false))) ∧
    (identify_bin_index x bin_edges nbins = nbins ↔
      (f64_lt (F64.val (bin_edges.getD 0 0)) x = false ∨
        f64_lt (F64.val (bin_edges.getD nbins 0)) x = true)) := by
  have htake : bin_edges.take (nbins + 1) = bin_edges :=
    List.take_of_length_le (by omega)
  have hkle : (bin_edges.takeWhile fun e => f64_lt (F64.val e) x).length ≤ nbins + 1 := by
    have := takeWhile_length_le (fun e => f64_lt (F64.val e) x) bin_edges
    omega
  have hdown : ∀ i j : ℕ, i ≤ j → j < bin_edges.length →
      f64_lt (F64.val (bin_edges.getD j 0)) x = true →
      f64_lt (F64.val (bin_edges.getD i 0)) x = true := by
    intro i j hij hj h
    rcases Nat.eq_or_lt_of_le hij with rfl | hlt
    · exact h
    · have hi : i < bin_edges.length := by omega
      have hq : bin_edges.getD i 0 < bin_edges.getD j 0 := by
        rw [List.getD_eq_getElem _ _ hi, List.getD_eq_getElem _ _ hj]
        exact List.pairwise_iff_getElem.mp hmono i j hi hj hlt
      exact f64_lt_edge_downward x _ _ hq h
  have hki : ∀ i, i < bin_edges.length →
      ((i < (bin_edges.takeWhile fun e => f64_lt (F64.val e) x).length) ↔
        f64_lt (F64.val (bin_edges.getD i 0)) x = true) := by
    intro i hi
    constructor
    · intro h
      exact takeWhile_getD_true _ 0 bin_edges i h
    · intro h
      by_contra hc
      push_neg at hc
      have hklen : (bin_edges.takeWhile fun e => f64_lt (F64.val e) x).length <
          bin_edges.length := by omega
      have hstop := takeWhile_getD_stop (fun e => f64_lt (F64.val e) x) 0 bin_edges hklen
      dsimp only at hstop
      have hk := hdown _ i hc hi h
      rw [hstop] at hk
      exact Bool.false_ne_true hk
  constructor
  · intro i hi
    have h1 := hki i (by omega)
    have h2 := hki (i + 1) (by omega)
    have e1 : (f64_lt (F64.val (bin_edges.getD i 0)) x = true) ↔
        i < (bin_edges.takeWhile fun e => f64_lt (F64.val e) x).length := h1.symm
    have e2 : (f64_lt (F64.val (bin_edges.getD (i + 1) 0)) x = false) ↔
        ¬(i + 1 < (bin_edges.takeWhile fun e => f64_lt (F64.val e) x).length) := by
      rw [← Bool.not_eq_true]
      exact not_congr h2.symm
    simp only [identify_bin_index, htake]
    rw [e1, e2]
    split_ifs with hif
    · constructor <;> (intro h; omega)
    · omega
  · have h0 := hki 0 (by omega)
    have hn2 := hki nbins (by omega)
    have e1 : (f64_lt (F64.val (bin_edges.getD 0 0)) x = false) ↔
        ¬(0 < (bin_edges.takeWhile fun e => f64_lt (F64.val e) x).length) := by
      rw [← Bool.not_eq_true]
      exact not_congr h0.symm
    have e2 : (f64_lt (F64.val (bin_edges.getD nbins 0)) x = true) ↔
        nbins < (bin_edges.takeWhile fun e => f64_lt (F64.val e) x).length := hn2.symm
    simp only [identify_bin_index, htake]
    rw [e1, e2]
    split_ifs with hif
    · omega
    · omega

/-- C2 counterexample: `x = 0` with edges `[0, 1]` (`nbins = 1`) satisfies
`edges[0] ≤ x < edges[1]`, so the claimed contract demands index `0`; the
code returns `nbins = 1` (a value equal to an edge is binned to the *left*
of that edge). -/
theorem identify_bin_index_at_lower_edge :
    identify_bin_index (F64.val 0) [0, 1] 1 = 1 ∧ ((0 : ℚ) ≤ 0 ∧ (0 : ℚ) < 1) := by
  refine ⟨by decide, by norm_num⟩

/-- Witness for `identify_bin_index_bins_left_open` at
`x = 3`, edges `[0, 1, 4]`, `nbins = 2`. -/
theorem identify_bin_index_bins_left_open_witness :
    ((([0, 1, 4] : List ℚ).length = 2 + 1 ∧ 1 ≤ 2 ∧
        ([0, 1, 4] : List ℚ).Pairwise (· < ·))) ∧
      ((∀ i, i < 2 →
        (identify_bin_index (F64.val 3) [0, 1, 4] 2 = i ↔
          (f64_lt (F64.val (([0, 1, 4] : List ℚ).getD i 0)) (F64.val 3) = true ∧
            f64_lt (F64.val (([0, 1, 4] : List ℚ).getD (i + 1) 0)) (F64.val 3) = false))) ∧
      (identify_bin_index (F64.val 3) [0, 1, 4] 2 = 2 ↔
        (f64_lt (F64.val (([0, 1, 4] : List ℚ).getD 0 0)) (F64.val 3) = false ∨
          f64_lt (F64.val (([0, 1, 4] : List ℚ).getD 2 0)) (F64.val 3) = true))) :=
  ⟨⟨rfl, by norm_num, by norm_num⟩,
    identify_bin_index_bins_left_open (F64.val 3) [0, 1, 4] 2 rfl (by norm_num)
      (by norm_num)⟩

/-- What the segment-search loop returns: the smallest `s ≥ cur` with
`num_dist_array_chunks_auto s ≥ 3*nproc`, clamped to `max_segments`. -/
theorem seg_loop_spec (nproc max_segments : ℕ) :
    ∀ cur, cur ≤ max_segments →
      (cur ≤ seg_loop nproc max_segments cur ∧
        seg_loop nproc max_segments cur ≤ max_segments ∧
        (3 * nproc ≤ num_dist_array_chunks_auto (seg_loop nproc max_segments cur) ∨
          seg_loop nproc max_segments cur = max_segments) ∧
        (∀ s, cur ≤ s → s < seg_loop nproc max_segments cur →
          num_dist_array_chunks_auto s < 3 * nproc)) := by
  have H : ∀ fuel cur, max_segments - cur ≤ fuel → cur ≤ max_segments →
      (cur ≤ seg_loop nproc max_segments cur ∧
        seg_loop nproc max_segments cur ≤ max_segments ∧
        (3 * nproc ≤ num_dist_array_chunks_auto (seg_loop nproc max_segments cur) ∨
          seg_loop nproc max_segments cur = max_segments) ∧
        (∀ s, cur ≤ s → s < seg_loop nproc max_segments cur →
          num_dist_array_chunks_auto s < 3 * nproc)) := by
    intro fuel
    induction fuel with
    | zero =>
      intro cur hf hle
      have hmax : max_segments ≤ cur := by omega
      unfold seg_loop
      rw [dif_pos hmax]
      exact ⟨by omega, le_refl _, Or.inr rfl, fun s hs1 hs2 => by omega⟩
    | succ n ih =>
      intro cur hf hle
      unfold seg_loop
      by_cases hmax : max_segments ≤ cur
      · rw [dif_pos hmax]
        exact ⟨by omega, le_refl _, Or.inr rfl, fun s hs1 hs2 => by omega⟩
      · rw [dif_neg hmax]
        by_cases hcond : 3 * nproc ≤ num_dist_array_chunks_auto cur
        · rw [if_pos hcond]
          exact ⟨le_refl _, by omega, Or.inl hcond, fun s hs1 hs2 => by omega⟩
        · rw [if_neg hcond]
          obtain ⟨ha, hb, hc, hd⟩ := ih (cur + 1) (by omega) (by omega)
          refine ⟨by omega, hb, hc, ?_⟩
          intro s hs1 hs2
          rcases Nat.eq_or_lt_of_le hs1 with heq | hlt
          · rw [← heq]
            omega
          · exact hd s (by omega) hs2
  intro cur hle
  exact H (max_segments - cur) cur (le_refl _) hle

/-- C5 counterexample: at `nproc = 1, n_points = 1001,
skip_small_prob_check = false` the small-problem rule does *not* apply
(`1001 > 1000`), and the smallest `S ∈ [2, max_segments]` with
`S(S+1)/2 ≥ 3·nproc = 3` is `S = 2` (`num_dist_array_chunks_auto 2 = 3`);
yet `create` returns `num_segments = 1` (because of the `nproc == 1`
early-out the claim does not account for). -/
theorem auto_create_nproc_one_segments :
    AutoSFPartitionStrat.create 1 1001 false = some ⟨1001, 1⟩ ∧
      ¬(false = false ∧ (1001 : ℕ) ≤ 1000) ∧
      2 ≤ AutoSFPartitionStrat.max_segments 1001 ∧
      3 * 1 ≤ num_dist_array_chunks_auto 2 ∧ (1 : ℕ) ≠ 2 := by
  refine ⟨rfl, by norm_num, by norm_num [AutoSFPartitionStrat.max_segments], by norm_num [num_dist_array_chunks_auto], by norm_num⟩

/-- C5 (amended): when neither the small-problem rule nor the `nproc == 1`
nor the `max_segments == 1` early-out forces `S = 1`, `create` succeeds and
returns the smallest `S ∈ [2, max_segments]` with
`num_dist_array_chunks_auto S ≥ 3·nproc`, clamped to `max_segments`; the
returned `S` satisfies `2S + 1 ≤ n_points`, so the fatal
`"too many segments"` branch is unreachable. -/
theorem auto_create_smallest_segments (nproc n_points : ℕ) (skip : Bool)
    (h1 : 1 ≤ nproc) (h60 : nproc ≤ 60) (hN : 2 ≤ n_points)
    (hsmall : ¬(skip = false ∧ n_points ≤ 1000))
    (hnp : nproc ≠ 1)
    (hmax : AutoSFPartitionStrat.max_segments n_points ≠ 1) :
    ∃ S, AutoSFPartitionStrat.create nproc n_points skip = some ⟨n_points, S⟩ ∧
      2 ≤ S ∧ S ≤ AutoSFPartitionStrat.max_segments n_points ∧
      (3 * nproc ≤ num_dist_array_chunks_auto S ∨
        S = AutoSFPartitionStrat.max_segments n_points) ∧
      (∀ s, 2 ≤ s → s < S → num_dist_array_chunks_auto s < 3 * nproc) ∧
      2 * S + 1 ≤ n_points := by
  have hN5 : 5 ≤ n_points := by
    by_contra hc
    apply hmax
    unfold AutoSFPartitionStrat.max_segments
    rw [if_pos (by omega)]
  have hmval : AutoSFPartitionStrat.max_segments n_points = (n_points - 1) / 2 := by
    unfold AutoSFPartitionStrat.max_segments
    rw [if_neg (by omega)]
  have hm2 : 2 ≤ AutoSFPartitionStrat.max_segments n_points := by
    omega
  obtain ⟨ha, hb, hc, hd⟩ :=
    seg_loop_spec nproc (AutoSFPartitionStrat.max_segments n_points) 2 (by omega)
  have h2S1 : 2 * seg_loop nproc (AutoSFPartitionStrat.max_segments n_points) 2 + 1 ≤
      n_points := by
    omega
  refine ⟨seg_loop nproc (AutoSFPartitionStrat.max_segments n_points) 2, ?_, ha, hb, hc,
    hd, h2S1⟩
  unfold AutoSFPartitionStrat.create
  rw [if_neg (by omega), if_neg (by omega), if_neg (by omega),
    if_neg (by simp only [not_or]; exact ⟨hsmall, hnp, hmax⟩), if_neg (by omega)]

/-- Witness for `build_StatTask_tasks_partition_pairs`: the auto strategy
`(N, S) = (7, 3)` at the pair `(2, 5)` and the cross strategy
`(N_A, S_A, N_B, S_B) = (5, 2, 4, 2)` at the pair `(3, 1)`. -/
theorem build_StatTask_tasks_partition_pairs_witness :
    (2 ≤ 7 ∧ 1 ≤ 3 ∧ 2 * 3 + 1 ≤ 7 ∧
      (((2 : ℕ) < 5 ∧ (5 : ℕ) < 7) ↔
        ∃! ij : ℕ × ℕ, (ij.1 ≤ ij.2 ∧ ij.2 < 3) ∧
          (AutoSFPartitionStrat.build_StatTask ⟨7, 3⟩ ij).pair_mem 2 5)) ∧
    (1 ≤ 2 ∧ 2 ≤ 5 ∧ 1 ≤ 2 ∧ 2 ≤ 4 ∧
      (((3 : ℕ) < 5 ∧ (1 : ℕ) < 4) ↔
        ∃! ij : ℕ × ℕ, (ij.1 < 2 ∧ ij.2 < 2) ∧
          (CrossSFPartitionStrat.build_StatTask ⟨5, 2, 4, 2⟩ ij).enumerates_nodup 3 1)) :=
  ⟨⟨by norm_num, by norm_num, by norm_num,
      build_StatTask_tasks_partition_pairs.1 7 3 2 5 (by norm_num) (by norm_num)
        (by norm_num)⟩,
    ⟨by norm_num, by norm_num, by norm_num, by norm_num,
      build_StatTask_tasks_partition_pairs.2 5 2 4 2 3 1 (by norm_num) (by norm_num)
        (by norm_num) (by norm_num)⟩⟩

/-- Witness for `auto_create_smallest_segments` at
`nproc = 2, n_points = 1001, skip = false` (the chosen `S` is 3, the
smallest with `S(S+1)/2 ≥ 6`). -/
theorem auto_create_smallest_segments_witness :
    (1 ≤ 2 ∧ 2 ≤ 60 ∧ 2 ≤ 1001 ∧ ¬(false = false ∧ (1001 : ℕ) ≤ 1000) ∧
      (2 : ℕ) ≠ 1 ∧ AutoSFPartitionStrat.max_segments 1001 ≠ 1) ∧
    (∃ S, AutoSFPartitionStrat.create 2 1001 false = some ⟨1001, S⟩ ∧
      2 ≤ S ∧ S ≤ AutoSFPartitionStrat.max_segments 1001 ∧
      (3 * 2 ≤ num_dist_array_chunks_auto S ∨
        S = AutoSFPartitionStrat.max_segments 1001) ∧
      (∀ s, 2 ≤ s → s < S → num_dist_array_chunks_auto s < 3 * 2) ∧
      2 * S + 1 ≤ 1001) :=
  ⟨⟨by norm_num, by norm_num, by norm_num, by norm_num, by norm_num, by decide⟩,
    auto_create_smallest_segments 2 1001 false (by norm_num) (by norm_num)
      (by norm_num) (by norm_num) (by norm_num) (by decide)⟩

/-! small helpers about `List.getD` / `List.set` used to reason about the
`moment_accums` arrays -/

theorem getD_set_self (l : List ℚ) (n : ℕ) (x : ℚ) (h : n < l.length) :
    (l.set n x).getD n 0 = x := by
  rw [List.getD_eq_getElem _ _ (by simpa using h)]
  simp [List.getElem_set_self]

theorem getD_set_ne (l : List ℚ) (m n : ℕ) (x : ℚ) (h : m ≠ n) :
    (l.set m x).getD n 0 = l.getD n 0 := by
  rcases Nat.lt_or_ge n l.length with hn | hn
  · rw [List.getD_eq_getElem _ _ (by simpa using hn), List.getD_eq_getElem _ _ hn]
    rw [List.getElem_set_ne h]
  · rw [List.getD_eq_default _ _ (by simpa using hn), List.getD_eq_default _ _ hn]

theorem getD_replicate_zero (n i : ℕ) : (List.replicate n (0 : ℚ)).getD i 0 = 0 := by
  rcases Nat.lt_or_ge i n with h | h
  · rw [List.getD_eq_getElem _ _ (by simpa using h)]
    simp
  · rw [List.getD_eq_default _ _ (by simpa using h)]

/-- C9: for every unweighted (integer-count) central-moment and
origin-moment accumulator, every state, value and weight, the two-argument
`add_entry(val, weight)` produces exactly the state of the one-argument
`add_entry(val)`: the weight argument is ignored. -/
theorem unweighted_add_entry_ignores_weight :
    (∀ (Order : ℕ) (a : CentralMomentAccum) (val weight : ℚ),
      a.add_entry_with_weight Order val weight = a.add_entry Order val) ∧
    (∀ (Order : ℕ) (a : OriginMomentAccum) (val weight : ℚ),
      a.add_entry_with_weight Order val weight = a.add_entry Order val) :=
  ⟨fun _ _ _ _ => rfl, fun _ _ _ _ => rfl⟩

/-- The weight-sum component of `add_entry`: `count ← count + weight`. -/
theorem WeightedCentralMomentAccum.add_entry_count (Order : ℕ)
    (a : WeightedCentralMomentAccum) (val weight : ℚ) :
    (a.add_entry Order val weight).count = a.count + weight := by
  unfold WeightedCentralMomentAccum.add_entry
  by_cases ho : 1 < Order
  · rw [if_pos ho]
  · rw [if_neg ho]

/-- The mean component of `add_entry` (nonempty `moment_accums`). -/
theorem WeightedCentralMomentAccum.add_entry_mean (Order : ℕ)
    (a : WeightedCentralMomentAccum) (val weight : ℚ)
    (hlen : 0 < a.moment_accums.length) :
    (a.add_entry Order val weight).moment_accums.getD 0 0 =
      a.moment_accums.getD 0 0 + ((val - a.moment_accums.getD 0 0) * weight) /
        (a.count + weight + if a.count + weight = 0 then 1 else 0) := by
  unfold WeightedCentralMomentAccum.add_entry
  by_cases ho : 1 < Order
  · rw [if_pos ho]
    show ((a.moment_accums.set 0 _).set 1 _).getD 0 0 = _
    rw [getD_set_ne _ _ _ _ (by omega), getD_set_self _ _ _ hlen]
  · rw [if_neg ho]
    show (a.moment_accums.set 0 _).getD 0 0 = _
    rw [getD_set_self _ _ _ hlen]

/-- Degenerate case: with an empty `moment_accums` array the mean reads
back as the default 0. -/
theorem WeightedCentralMomentAccum.add_entry_mean_nil (Order : ℕ)
    (a : WeightedCentralMomentAccum) (val weight : ℚ)
    (hlen : a.moment_accums.length = 0) :
    (a.add_entry Order val weight).moment_accums.getD 0 0 = 0 := by
  have h0 : a.moment_accums = [] := List.length_eq_zero.mp hlen
  unfold WeightedCentralMomentAccum.add_entry
  by_cases ho : 1 < Order
  · rw [if_pos ho]
    show ((a.moment_accums.set 0 _).set 1 _).getD 0 0 = 0
    rw [h0]
    rfl
  · rw [if_neg ho]
    show (a.moment_accums.set 0 _).getD 0 0 = 0
    rw [h0]
    rfl

/-- The weight-sum component of the general `consolidate_with_other`
branch: `count ← count + other.count`. -/
theorem WeightedCentralMomentAccum.consolidate_count (Order : ℕ)
    (a b : WeightedCentralMomentAccum) (h1 : a.count ≠ 0) (h2 : b.count ≠ 0) :
    (a.consolidate_with_other Order b).count = a.count + b.count := by
  unfold WeightedCentralMomentAccum.consolidate_with_other
  rw [if_neg h1, if_neg h2]

/-- Auxiliary invariant: every reachable state (nonnegative weights) has a
nonnegative weight sum, and a zero mean whenever its weight sum is zero. -/
theorem WeightedCentralMomentAccum.reachable_inv (Order : ℕ)
    (a : WeightedCentralMomentAccum)
    (h : WeightedCentralMomentAccum.Reachable Order a) :
    0 ≤ a.count ∧ (a.count = 0 → a.moment_accums.getD 0 0 = 0) := by
  induction h with
  | init =>
    exact ⟨le_refl 0, fun _ => getD_replicate_zero Order 0⟩
  | add a val weight ha hw ih =>
    obtain ⟨ih1, ih2⟩ := ih
    have hc := WeightedCentralMomentAccum.add_entry_count Order a val weight
    constructor
    · rw [hc]
      linarith
    · intro hzero
      rw [hc] at hzero
      have hw0 : weight = 0 := by linarith
      have ha0 : a.count = 0 := by linarith
      rcases Nat.eq_zero_or_pos a.moment_accums.length with hlen | hlen
      · exact WeightedCentralMomentAccum.add_entry_mean_nil Order a val weight hlen
      · rw [WeightedCentralMomentAccum.add_entry_mean Order a val weight hlen,
          ih2 ha0, hw0]
        simp
  | merge a b ha hb iha ihb =>
    obtain ⟨iha1, iha2⟩ := iha
    obtain ⟨ihb1, ihb2⟩ := ihb
    by_cases h1 : a.count = 0
    · unfold WeightedCentralMomentAccum.consolidate_with_other
      rw [if_pos h1]
      exact ⟨ihb1, ihb2⟩
    · by_cases h2 : b.count = 0
      · unfold WeightedCentralMomentAccum.consolidate_with_other
        rw [if_neg h1, if_pos h2]
        exact ⟨iha1, iha2⟩
      · have hc := WeightedCentralMomentAccum.consolidate_count Order a b h1 h2
        have hA : 0 < a.count := lt_of_le_of_ne iha1 (Ne.symm h1)
        have hB : 0 < b.count := lt_of_le_of_ne ihb1 (Ne.symm h2)
        constructor
        · rw [hc]
          linarith
        · intro hzero
          rw [hc] at hzero
          exfalso
          linarith

/-- C3 (amended): `add_entry(v, w = 0)` on a freshly-initialised weighted
central-moment accumulator leaves the weight sum at 0 and the mean
unchanged at 0 (the divisor is forced to 1 when the weight sum is zero);
and every sequence of `add_entry` operations with *nonnegative* weights and
`consolidate_with_other` operations with partners reached the same way
preserves the invariant `count == 0 ⇒ mean == 0`. -/
theorem weighted_central_moment_zero_count_mean_zero :
    (∀ (Order : ℕ) (val : ℚ),
      ((WeightedCentralMomentAccum.init Order).add_entry Order val 0).count = 0 ∧
      ((WeightedCentralMomentAccum.init Order).add_entry Order val
        0).moment_accums.getD 0 0 = 0) ∧
    (∀ (Order : ℕ) (a : WeightedCentralMomentAccum),
      WeightedCentralMomentAccum.Reachable Order a → a.count = 0 →
        a.moment_accums.getD 0 0 = 0) := by
  constructor
  · intro Order val
    have hr : WeightedCentralMomentAccum.Reachable Order
        ((WeightedCentralMomentAccum.init Order).add_entry Order val 0) :=
      WeightedCentralMomentAccum.Reachable.add _ val 0
        WeightedCentralMomentAccum.Reachable.init (le_refl 0)
    have hc : ((WeightedCentralMomentAccum.init Order).add_entry Order val 0).count
        = 0 := by
      rw [WeightedCentralMomentAccum.add_entry_count]
      show (0 : ℚ) + 0 = 0
      norm_num
    exact ⟨hc, (WeightedCentralMomentAccum.reachable_inv Order _ hr).2 hc⟩
  · intro Order a h hz
    exact (WeightedCentralMomentAccum.reachable_inv Order a h).2 hz

/-- `add_entry` preserves the length of `moment_accums`. -/
theorem WeightedCentralMomentAccum.add_entry_length (Order : ℕ)
    (a : WeightedCentralMomentAccum) (val weight : ℚ) :
    (a.add_entry Order val weight).moment_accums.length =
      a.moment_accums.length := by
  unfold WeightedCentralMomentAccum.add_entry
  by_cases ho : 1 < Order
  · rw [if_pos ho]
    show ((a.moment_accums.set 0 _).set 1 _).length = _
    simp
  · rw [if_neg ho]
    show (a.moment_accums.set 0 _).length = _
    simp

/-- C3 counterexample: the sequence `add_entry(5, 1); add_entry(7, -1)` on
a fresh weighted accumulator (`Order = 2`) drives the weight sum back to 0
while the mean ends at `5 + (7-5)·(-1)/(0+1) = 3 ≠ 0` (all steps exact in
IEEE double arithmetic as well): the invariant `count == 0 ⇒ mean == 0` is
not preserved by arbitrary-weight sequences. -/
theorem weighted_mean_nonzero_with_negative_weight :
    (((WeightedCentralMomentAccum.init 2).add_entry 2 5 1).add_entry 2 7
        (-1)).count = 0 ∧
    (((WeightedCentralMomentAccum.init 2).add_entry 2 5 1).add_entry 2 7
        (-1)).moment_accums.getD 0 0 = 3 := by
  have c0 : (WeightedCentralMomentAccum.init 2).count = 0 := rfl
  have m0 : (WeightedCentralMomentAccum.init 2).moment_accums.getD 0 0 = 0 := rfl
  have l0 : (WeightedCentralMomentAccum.init 2).moment_accums.length = 2 := rfl
  have c1 : ((WeightedCentralMomentAccum.init 2).add_entry 2 5 1).count = 1 := by
    rw [WeightedCentralMomentAccum.add_entry_count, c0]
    norm_num
  have m1 : ((WeightedCentralMomentAccum.init 2).add_entry 2 5
      1).moment_accums.getD 0 0 = 5 := by
    rw [WeightedCentralMomentAccum.add_entry_mean 2 _ 5 1 (by rw [l0]; norm_num),
      m0, c0]
    norm_num
  have l1 : ((WeightedCentralMomentAccum.init 2).add_entry 2 5
      1).moment_accums.length = 2 := by
    rw [WeightedCentralMomentAccum.add_entry_length, l0]
  constructor
  · rw [WeightedCentralMomentAccum.add_entry_count, c1]
    norm_num
  · rw [WeightedCentralMomentAccum.add_entry_mean 2 _ 7 (-1) (by rw [l1]; norm_num),
      m1, c1]
    norm_num

/-- Witness for `weighted_central_moment_zero_count_mean_zero` at the
freshly-initialised `Order = 2` accumulator. -/
theorem weighted_central_moment_zero_count_mean_zero_witness :
    (WeightedCentralMomentAccum.Reachable 2 (WeightedCentralMomentAccum.init 2) ∧
      (WeightedCentralMomentAccum.init 2).count = 0) ∧
    (WeightedCentralMomentAccum.init 2).moment_accums.getD 0 0 = 0 :=
  ⟨⟨WeightedCentralMomentAccum.Reachable.init, rfl⟩,
    weighted_central_moment_zero_count_mean_zero.2 2 _
      WeightedCentralMomentAccum.Reachable.init rfl⟩

/-- C10: merging two histogram collections compares only
`(n_spatial_bins, n_data_bins)`: the fatal shape-mismatch error fires
exactly when the shapes differ, and with equal shapes the merge succeeds
and sums `bin_counts` element-wise regardless of the two `data_bin_edges`
arrays (no hypothesis below relates them). -/
theorem histogram_consolidate_compares_only_shapes {T : Type} [Add T] [Inhabited T]
    (c other : GenericHistogramAccumCollection T)
    (hlen : c.bin_counts.length = c.n_data_bins * c.n_spatial_bins)
    (hlen' : other.bin_counts.length = other.n_data_bins * other.n_spatial_bins) :
    (c.consolidate_with_other other = none ↔
      ¬(other.n_spatial_bins = c.n_spatial_bins ∧
        other.n_data_bins = c.n_data_bins)) ∧
    (other.n_spatial_bins = c.n_spatial_bins → other.n_data_bins = c.n_data_bins →
      c.consolidate_with_other other =
        some ⟨c.n_spatial_bins, c.n_data_bins,
          (List.range c.bin_counts.length).map
            (fun i => c.bin_counts.getD i default + other.bin_counts.getD i default),
          c.data_bin_edges⟩) := by
  constructor
  · unfold GenericHistogramAccumCollection.consolidate_with_other
    split_ifs with h
    · simp only [true_iff]
      tauto
    · simp only [reduceCtorEq, false_iff, not_not]
      tauto
  · intro h1 h2
    unfold GenericHistogramAccumCollection.consolidate_with_other
    rw [if_neg (by tauto)]

/-- Witness for `histogram_consolidate_compares_only_shapes`: two `1 × 1`
integer histograms with *different* data-bin edges merge by summing. -/
theorem histogram_consolidate_compares_only_shapes_witness :
    ((⟨1, 1, [2], [0, 1]⟩ : GenericHistogramAccumCollection ℤ).bin_counts.length =
        1 * 1 ∧
      (⟨1, 1, [3], [5, 9]⟩ : GenericHistogramAccumCollection ℤ).bin_counts.length =
        1 * 1) ∧
    (⟨1, 1, [2], [0, 1]⟩ : GenericHistogramAccumCollection ℤ).consolidate_with_other
        ⟨1, 1, [3], [5, 9]⟩ = some ⟨1, 1, [5], [0, 1]⟩ := by
  refine ⟨⟨rfl, rfl⟩, ?_⟩
  rw [(histogram_consolidate_compares_only_shapes
    (⟨1, 1, [2], [0, 1]⟩ : GenericHistogramAccumCollection ℤ)
    (⟨1, 1, [3], [5, 9]⟩ : GenericHistogramAccumCollection ℤ) rfl rfl).2 rfl rfl]
  rfl

/-- Incrementing one in-bounds entry raises the total count by one. -/
theorem sum_set_getD_add_one (l : List ℤ) (i : ℕ) (h : i < l.length) :
    (l.set i (l.getD i 0 + 1)).sum = l.sum + 1 := by
  induction l generalizing i with
  | nil => simp at h
  | cons a t ih =>
    cases i with
    | zero =>
      simp only [List.set, List.getD_cons_zero, List.sum_cons]
      omega
    | succ n =>
      have hn : n < t.length := by simpa using h
      simp only [List.set, List.getD_cons_succ, List.sum_cons]
      rw [ih n hn]
      omega

/-- `add_entry` never changes the shape, the edges, or the counts-array
length of a histogram collection. -/
theorem GenericHistogramAccumCollection.add_entry_fields
    (c : GenericHistogramAccumCollection ℤ) (s : ℕ) (v : ℚ) :
    (c.add_entry s v).n_spatial_bins = c.n_spatial_bins ∧
    (c.add_entry s v).n_data_bins = c.n_data_bins ∧
    (c.add_entry s v).data_bin_edges = c.data_bin_edges ∧
    (c.add_entry s v).bin_counts.length = c.bin_counts.length := by
  unfold GenericHistogramAccumCollection.add_entry
  by_cases hd : identify_bin_index (F64.val v) c.data_bin_edges c.n_data_bins <
      c.n_data_bins
  · rw [if_pos hd]
    exact ⟨rfl, rfl, rfl, by simp⟩
  · rw [if_neg hd]
    exact ⟨rfl, rfl, rfl, rfl⟩

/-- `add_entry` adds one to the total count when the value lands in a data
bin and leaves the total unchanged otherwise. -/
theorem GenericHistogramAccumCollection.add_entry_sum
    (c : GenericHistogramAccumCollection ℤ) (s : ℕ) (v : ℚ)
    (hs : s < c.n_spatial_bins)
    (hlen : c.bin_counts.length = c.n_data_bins * c.n_spatial_bins) :
    (c.add_entry s v).bin_counts.sum = c.bin_counts.sum +
      (if identify_bin_index (F64.val v) c.data_bin_edges c.n_data_bins <
        c.n_data_bins then 1 else 0) := by
  unfold GenericHistogramAccumCollection.add_entry
  by_cases hd : identify_bin_index (F64.val v) c.data_bin_edges c.n_data_bins <
      c.n_data_bins
  · rw [if_pos hd, if_pos hd]
    have hidx : identify_bin_index (F64.val v) c.data_bin_edges c.n_data_bins +
        s * c.n_data_bins < c.bin_counts.length := by
      rw [hlen]
      calc identify_bin_index (F64.val v) c.data_bin_edges c.n_data_bins +
            s * c.n_data_bins
          < c.n_data_bins + s * c.n_data_bins := by omega
        _ = (s + 1) * c.n_data_bins := by ring
        _ ≤ c.n_spatial_bins * c.n_data_bins := Nat.mul_le_mul_right _ (by omega)
        _ = c.n_data_bins * c.n_spatial_bins := Nat.mul_comm _ _
    exact sum_set_getD_add_one _ _ hidx
  · rw [if_neg hd, if_neg hd]
    simp

/-- Folding the correlate pair step over any pair list adds exactly one to
the total histogram count per pair that lands in both a spatial and a data
bin. -/
theorem process_pair_correlate_fold_sum (pos_a values_a : ℕ → ℚ) (stride_a : ℕ)
    (pos_b values_b : ℕ → ℚ) (stride_b : ℕ) (dist_sqr_bin_edges : List ℚ)
    (nbins : ℕ) (nd0 : ℕ) (edges0 : List ℚ) :
    ∀ (ps : List (ℕ × ℕ)) (acc : GenericHistogramAccumCollection ℤ),
      acc.n_spatial_bins = nbins → acc.n_data_bins = nd0 →
      acc.data_bin_edges = edges0 →
      acc.bin_counts.length = acc.n_data_bins * acc.n_spatial_bins →
      (ps.foldl (process_pair_correlate pos_a values_a stride_a pos_b values_b
        stride_b dist_sqr_bin_edges nbins) acc).bin_counts.sum =
        acc.bin_counts.sum +
          (ps.countP (pair_counted_by_histogram pos_a values_a stride_a pos_b
            values_b stride_b dist_sqr_bin_edges nbins edges0 nd0) : ℤ) := by
  intro ps
  induction ps with
  | nil =>
    intro acc _ _ _ _
    simp
  | cons p t ih =>
    intro acc h1 h2 h3 h4
    rw [List.foldl_cons, List.countP_cons]
    by_cases hb : identify_bin_index (F64.val (calc_dist_sqr (pos_a p.1) (pos_b p.2)
        (pos_a (p.1 + stride_a)) (pos_b (p.2 + stride_b))
        (pos_a (p.1 + 2 * stride_a)) (pos_b (p.2 + 2 * stride_b))))
        dist_sqr_bin_edges nbins < nbins
    · have hstep : process_pair_correlate pos_a values_a stride_a pos_b values_b
          stride_b dist_sqr_bin_edges nbins acc p =
            acc.add_entry (identify_bin_index (F64.val (calc_dist_sqr (pos_a p.1)
              (pos_b p.2) (pos_a (p.1 + stride_a)) (pos_b (p.2 + stride_b))
              (pos_a (p.1 + 2 * stride_a)) (pos_b (p.2 + 2 * stride_b))))
              dist_sqr_bin_edges nbins) (values_a p.1 * values_b p.2) := by
        unfold process_pair_correlate
        rw [if_pos hb]
      obtain ⟨hf1, hf2, hf3, hf4⟩ := GenericHistogramAccumCollection.add_entry_fields
        acc (identify_bin_index (F64.val (calc_dist_sqr (pos_a p.1) (pos_b p.2)
          (pos_a (p.1 + stride_a)) (pos_b (p.2 + stride_b))
          (pos_a (p.1 + 2 * stride_a)) (pos_b (p.2 + 2 * stride_b))))
          dist_sqr_bin_edges nbins) (values_a p.1 * values_b p.2)
      rw [hstep, ih _ (by rw [hf1, h1]) (by rw [hf2, h2]) (by rw [hf3, h3])
        (by rw [hf4, hf1, hf2, h4])]
      rw [GenericHistogramAccumCollection.add_entry_sum acc _ _ (by rw [h1]; exact hb)
        h4]
      have hpred : pair_counted_by_histogram pos_a values_a stride_a pos_b values_b
          stride_b dist_sqr_bin_edges nbins edges0 nd0 p =
            decide (identify_bin_index (F64.val (values_a p.1 * values_b p.2))
              edges0 nd0 < nd0) := by
        unfold pair_counted_by_histogram pair_in_distance_range
        rw [decide_eq_true hb]
        rw [Bool.true_and]
      rw [hpred, h2, h3]
      by_cases hdata : identify_bin_index (F64.val (values_a p.1 * values_b p.2))
          edges0 nd0 < nd0
      · rw [if_pos hdata, decide_eq_true hdata, if_pos rfl]
        push_cast
        ring
      · rw [if_neg hdata, decide_eq_false hdata]
        simp
    · have hstep : process_pair_correlate pos_a values_a stride_a pos_b values_b
          stride_b dist_sqr_bin_edges nbins acc p = acc := by
        unfold process_pair_correlate
        rw [if_neg hb]
      have hpred : pair_counted_by_histogram pos_a values_a stride_a pos_b values_b
          stride_b dist_sqr_bin_edges nbins edges0 nd0 p = false := by
        unfold pair_counted_by_histogram pair_in_distance_range
        rw [decide_eq_false hb]
        rw [Bool.false_and]
      rw [hstep, ih acc h1 h2 h3 h4, hpred]
      simp

/-- C6 (amended): for every run of the correlate pair kernel with an
(integer) histogram accumulator collection started from a purged state, the
sum of `bin_counts` over all data bins and spatial bins equals the number
of enumerated pairs whose spatial bin index was strictly below `nbins`
*and* whose statistic value landed in a data bin (data-bin index strictly
below `n_data_bins`). -/
theorem histogram_counts_conservation (pos_a values_a : ℕ → ℚ) (stride_a : ℕ)
    (pos_b values_b : ℕ → ℚ) (stride_b : ℕ) (n_points_a n_points_b : ℕ)
    (dist_sqr_bin_edges : List ℚ) (nbins : ℕ) (duplicated_points : Bool)
    (acc : GenericHistogramAccumCollection ℤ)
    (hns : acc.n_spatial_bins = nbins)
    (hpurged : acc.bin_counts =
      List.replicate (acc.n_data_bins * acc.n_spatial_bins) 0) :
    (process_data_correlate pos_a values_a stride_a pos_b values_b stride_b
      n_points_a n_points_b dist_sqr_bin_edges nbins duplicated_points
      acc).bin_counts.sum =
      ((pair_list n_points_a n_points_b duplicated_points).countP
        (pair_counted_by_histogram pos_a values_a stride_a pos_b values_b stride_b
          dist_sqr_bin_edges nbins acc.data_bin_edges acc.n_data_bins) : ℤ) := by
  unfold process_data_correlate
  rw [process_pair_correlate_fold_sum pos_a values_a stride_a pos_b values_b stride_b
    dist_sqr_bin_edges nbins acc.n_data_bins acc.data_bin_edges
    (pair_list n_points_a n_points_b duplicated_points) acc hns rfl rfl
    (by rw [hpurged]; simp)]
  rw [hpurged]
  simp

/-- C6 counterexample: two points at distance 1 with scalar values 2 and 3
(`stat_value = 6`), spatial squared-distance edges `[0, 4]` (`nbins = 1`),
histogram data edges `[0, 1]`: the single enumerated pair lands in spatial
bin 0 (`< nbins`) but its statistic value 6 lies outside every data bin, so
no count is recorded: the bin-count sum is 0 while the number of pairs
whose `dist_sqr` fell inside the spatial bins is 1. -/
theorem histogram_counts_conservation_fails_on_data_overflow :
    (process_data_correlate
      (fun n => if n = 1 then 1 else 0) (fun n => if n = 0 then 2 else 3) 2
      (fun n => if n = 1 then 1 else 0) (fun n => if n = 0 then 2 else 3) 2
      2 2 [0, 4] 1 true ⟨1, 1, [0], [0, 1]⟩).bin_counts.sum = 0 ∧
    ((pair_list 2 2 true).countP
      (pair_in_distance_range (fun n => if n = 1 then 1 else 0) 2
        (fun n => if n = 1 then 1 else 0) 2 [0, 4] 1) : ℤ) = 1 ∧
    (0 : ℤ) ≠ 1 := by
  have hp : pair_list 2 2 true = [(0, 1)] := rfl
  have hd : calc_dist_sqr ((fun n : ℕ => if n = 1 then (1 : ℚ) else 0) 0)
      ((fun n : ℕ => if n = 1 then (1 : ℚ) else 0) 1)
      ((fun n : ℕ => if n = 1 then (1 : ℚ) else 0) (0 + 2))
      ((fun n : ℕ => if n = 1 then (1 : ℚ) else 0) (1 + 2))
      ((fun n : ℕ => if n = 1 then (1 : ℚ) else 0) (0 + 2 * 2))
      ((fun n : ℕ => if n = 1 then (1 : ℚ) else 0) (1 + 2 * 2)) = 1 := by
    norm_num [calc_dist_sqr]
  have hv : (fun n : ℕ => if n = 0 then (2 : ℚ) else 3) 0 *
      (fun n : ℕ => if n = 0 then (2 : ℚ) else 3) 1 = 6 := by
    norm_num
  have hbin1 : identify_bin_index (F64.val 1) [0, 4] 1 = 0 := by decide
  have hbin6 : identify_bin_index (F64.val 6) [0, 1] 1 = 1 := by decide
  refine ⟨?_, ?_, by norm_num⟩
  · unfold process_data_correlate
    rw [hp, List.foldl_cons, List.foldl_nil]
    unfold process_pair_correlate
    rw [show ((0, 1) : ℕ × ℕ).1 = 0 from rfl, show ((0, 1) : ℕ × ℕ).2 = 1 from rfl,
      hd, hv]
    dsimp only
    rw [hbin1, if_pos (by norm_num)]
    unfold GenericHistogramAccumCollection.add_entry
    dsimp only
    rw [hbin6, if_neg (by norm_num)]
    rfl
  · rw [hp, List.countP_cons, List.countP_nil]
    unfold pair_in_distance_range
    rw [show ((0, 1) : ℕ × ℕ).1 = 0 from rfl, show ((0, 1) : ℕ × ℕ).2 = 1 from rfl,
      hd, hbin1]
    norm_num

/-- Reading the copy buffer back at `(i, j)` recovers `access(accum_i, j)`. -/
theorem ScalarAccumCollection.copy_vals_getD {α β : Type} (n : ℕ)
    (acc : α → ℕ → β) (a0 : α) (b0 : β) (l : List α) (i j : ℕ)
    (hi : i < l.length) (hj : j < n) :
    (ScalarAccumCollection.copy_vals n acc a0 l).getD (i + j * l.length) b0 =
      acc (l.getD i a0) j := by
  have hk : i + j * l.length < n * l.length := by
    calc i + j * l.length < l.length + j * l.length := by omega
      _ = (j + 1) * l.length := by ring
      _ ≤ n * l.length := Nat.mul_le_mul_right _ (by omega)
  unfold ScalarAccumCollection.copy_vals
  rw [List.getD_eq_getElem _ _ (by simpa using hk)]
  rw [List.getElem_map, List.getElem_range]
  rw [show (i + j * l.length) % l.length = i by
      rw [Nat.add_mul_mod_self_right]
      exact Nat.mod_eq_of_lt hi,
    show (i + j * l.length) / l.length = j by
      rw [Nat.add_mul_div_right _ _ (by omega : 0 < l.length),
        Nat.div_eq_of_lt hi]
      omega]

/-- Generic round trip for scalar collections: when re-setting every
accessed value of an accumulator onto itself is the identity,
`import_vals ∘ copy_vals` is the identity on the collection. -/
theorem ScalarAccumCollection.import_copy_roundtrip {α β : Type} (n : ℕ)
    (acc : α → ℕ → β) (setv : α → ℕ → β → α) (a0 : α) (b0 : β) (l : List α)
    (h : ∀ a ∈ l, (List.range n).foldl (fun a' j => setv a' j (acc a j)) a = a) :
    ScalarAccumCollection.import_vals n setv a0 b0 l
      (ScalarAccumCollection.copy_vals n acc a0 l) = l := by
  apply List.ext_getElem
  · simp [ScalarAccumCollection.import_vals]
  · intro i h1 h2
    have hi : i < l.length := h2
    unfold ScalarAccumCollection.import_vals
    rw [List.getElem_map, List.getElem_range]
    rw [List.foldl_ext _ (fun a j => setv a j (acc (l.getD i a0) j)) _ ?_]
    · have hmem : l.getD i a0 ∈ l := by
        rw [List.getD_eq_getElem _ _ hi]
        exact List.getElem_mem hi
      have := h (l.getD i a0) hmem
      rw [this, List.getD_eq_getElem _ _ hi]
    · intro a j hj
      rw [ScalarAccumCollection.copy_vals_getD n acc a0 b0 l i j hi
        (by simpa using hj)]

/-! self-set fold identities used for the round-trip proofs -/

theorem set_getD_self (l : List ℚ) (n : ℕ) (h : n < l.length) :
    l.set n (l.getD n 0) = l := by
  apply List.ext_getElem
  · simp
  · intro i h1 h2
    by_cases hin : n = i
    · subst hin
      rw [List.getElem_set_self, List.getD_eq_getElem _ _ h]
    · rw [List.getElem_set_ne hin]

theorem list_selfset_fold (l : List ℚ) (k : ℕ) (hk : k ≤ l.length) :
    (List.range k).foldl (fun m j => m.set j (l.getD j 0)) l = l := by
  induction k with
  | zero => rfl
  | succ n ih =>
    rw [List.range_succ, List.foldl_append, ih (by omega), List.foldl_cons,
      List.foldl_nil]
    exact set_getD_self l n (by omega)

theorem cm_selfset_fold (a : CentralMomentAccum) (k : ℕ) :
    (List.range k).foldl (fun a' j => a'.set_f64 j (a.access_f64 j)) a =
      ⟨a.count, (List.range k).foldl
        (fun m j => m.set j (a.moment_accums.getD j 0)) a.moment_accums⟩ := by
  induction k with
  | zero => rfl
  | succ n ih =>
    rw [List.range_succ, List.foldl_append, List.foldl_append, ih]
    rfl

theorem om_selfset_fold (a : OriginMomentAccum) (k : ℕ) :
    (List.range k).foldl (fun a' j => a'.set_f64 j (a.access_f64 j)) a =
      ⟨a.count, (List.range k).foldl
        (fun m j => m.set j (a.moment_accums.getD j 0)) a.moment_accums⟩ := by
  induction k with
  | zero => rfl
  | succ n ih =>
    rw [List.range_succ, List.foldl_append, List.foldl_append, ih]
    rfl

theorem wcm_selfset_fold (a : WeightedCentralMomentAccum) (k : ℕ) :
    (List.range (k + 1)).foldl (fun a' j => a'.set_f64 j (a.access_f64 j)) a =
      ⟨a.count, (List.range k).foldl
        (fun m j => m.set j (a.moment_accums.getD j 0)) a.moment_accums⟩ := by
  induction k with
  | zero => rfl
  | succ n ih =>
    rw [List.range_succ, List.foldl_append, ih]
    conv_rhs => rw [List.range_succ]
    rw [List.foldl_append]
    rfl

theorem wom_selfset_fold (a : WeightedOriginMomentAccum) (k : ℕ) :
    (List.range (k + 1)).foldl (fun a' j => a'.set_f64 j (a.access_f64 j)) a =
      ⟨a.count, (List.range k).foldl
        (fun m j => m.set j (a.moment_accums.getD j 0)) a.moment_accums⟩ := by
  induction k with
  | zero => rfl
  | succ n ih =>
    rw [List.range_succ, List.foldl_append, ih]
    conv_rhs => rw [List.range_succ]
    rw [List.foldl_append]
    rfl

/-- Round trip for histogram collections (matching buffer type): importing
the copied counts restores the collection. -/
theorem hist_import_copy {T : Type} [Inhabited T]
    (c : GenericHistogramAccumCollection T) :
    c.import_vals c.copy_vals = c := by
  unfold GenericHistogramAccumCollection.import_vals
    GenericHistogramAccumCollection.copy_vals
  dsimp only
  have h : (List.range c.bin_counts.length).map
      (fun i => c.bin_counts.getD i default) = c.bin_counts := by
    apply List.ext_getElem
    · simp
    · intro i h1 h2
      rw [List.getElem_map, List.getElem_range, List.getD_eq_getElem _ _ h2]
  rw [h]

/-- C4 (amended): for scalar accumulator collections (central and origin
moments, unweighted and weighted) and histogram collections, writing the
integer and floating-point values with `copy_vals` and reading the same
buffers back with `import_vals` restores the collection exactly.
(The unweighted kinds expose 1 integer value (`count`) and `Order` float
values; the weighted kinds expose `Order + 1` float values
(`weight_sum` first) and no integer values.) -/
theorem serialization_roundtrip :
    (∀ (Order : ℕ) (l : List CentralMomentAccum),
      (∀ a ∈ l, a.moment_accums.length = Order) →
      (ScalarAccumCollection.import_vals 1 CentralMomentAccum.set_i64 ⟨0, []⟩ 0 l
        (ScalarAccumCollection.copy_vals 1 CentralMomentAccum.access_i64 ⟨0, []⟩ l)
          = l ∧
       ScalarAccumCollection.import_vals Order CentralMomentAccum.set_f64 ⟨0, []⟩ 0 l
        (ScalarAccumCollection.copy_vals Order CentralMomentAccum.access_f64 ⟨0, []⟩
          l) = l)) ∧
    (∀ (Order : ℕ) (l : List OriginMomentAccum),
      (∀ a ∈ l, a.moment_accums.length = Order) →
      (ScalarAccumCollection.import_vals 1 OriginMomentAccum.set_i64 ⟨0, []⟩ 0 l
        (ScalarAccumCollection.copy_vals 1 OriginMomentAccum.access_i64 ⟨0, []⟩ l)
          = l ∧
       ScalarAccumCollection.import_vals Order OriginMomentAccum.set_f64 ⟨0, []⟩ 0 l
        (ScalarAccumCollection.copy_vals Order OriginMomentAccum.access_f64 ⟨0, []⟩
          l) = l)) ∧
    (∀ (Order : ℕ) (l : List WeightedCentralMomentAccum),
      (∀ a ∈ l, a.moment_accums.length = Order) →
      ScalarAccumCollection.import_vals (Order + 1)
        WeightedCentralMomentAccum.set_f64 ⟨0, []⟩ 0 l
        (ScalarAccumCollection.copy_vals (Order + 1)
          WeightedCentralMomentAccum.access_f64 ⟨0, []⟩ l) = l) ∧
    (∀ (Order : ℕ) (l : List WeightedOriginMomentAccum),
      (∀ a ∈ l, a.moment_accums.length = Order) →
      ScalarAccumCollection.import_vals (Order + 1)
        WeightedOriginMomentAccum.set_f64 ⟨0, []⟩ 0 l
        (ScalarAccumCollection.copy_vals (Order + 1)
          WeightedOriginMomentAccum.access_f64 ⟨0, []⟩ l) = l) ∧
    (∀ c : GenericHistogramAccumCollection ℤ, c.import_vals c.copy_vals = c) ∧
    (∀ c : GenericHistogramAccumCollection ℚ, c.import_vals c.copy_vals = c) := by
  refine ⟨?_, ?_, ?_, ?_, fun c => hist_import_copy c, fun c => hist_import_copy c⟩
  · intro Order l hl
    constructor
    · exact ScalarAccumCollection.import_copy_roundtrip 1 _ _ _ _ l
        (fun a _ => rfl)
    · refine ScalarAccumCollection.import_copy_roundtrip Order _ _ _ _ l ?_
      intro a ha
      rw [cm_selfset_fold a Order,
        list_selfset_fold a.moment_accums Order (le_of_eq (hl a ha).symm)]
  · intro Order l hl
    constructor
    · exact ScalarAccumCollection.import_copy_roundtrip 1 _ _ _ _ l
        (fun a _ => rfl)
    · refine ScalarAccumCollection.import_copy_roundtrip Order _ _ _ _ l ?_
      intro a ha
      rw [om_selfset_fold a Order,
        list_selfset_fold a.moment_accums Order (le_of_eq (hl a ha).symm)]
  · intro Order l hl
    refine ScalarAccumCollection.import_copy_roundtrip (Order + 1) _ _ _ _ l ?_
    intro a ha
    rw [wcm_selfset_fold a Order,
      list_selfset_fold a.moment_accums Order (le_of_eq (hl a ha).symm)]
  · intro Order l hl
    refine ScalarAccumCollection.import_copy_roundtrip (Order + 1) _ _ _ _ l ?_
    intro a ha
    rw [wom_selfset_fold a Order,
      list_selfset_fold a.moment_accums Order (le_of_eq (hl a ha).symm)]

/-- C4 counterexample: for a compound accumulator collection the round trip
`import_vals(copy_vals(X))` does not restore `X` - `import_vals` is the
"Not Implemented" fatal error (`none`), on every input, in particular on
the buffer just produced by `copy_vals`. -/
theorem compound_import_vals_not_implemented :
    CompoundAccumCollection.import_vals ⟨[⟨1, [2]⟩], [⟨1, [3]⟩]⟩
      (CompoundAccumCollection.copy_vals_f64 1 1 ⟨[⟨1, [2]⟩], [⟨1, [3]⟩]⟩) =
      none := rfl

/-- Witness for `serialization_roundtrip`: a one-bin collection of one
`Order = 2` central-moment accumulator. -/
theorem serialization_roundtrip_witness :
    (∀ a ∈ [(⟨3, [5, 7]⟩ : CentralMomentAccum)], a.moment_accums.length = 2) ∧
    (ScalarAccumCollection.import_vals 1 CentralMomentAccum.set_i64 ⟨0, []⟩ 0
        [(⟨3, [5, 7]⟩ : CentralMomentAccum)]
        (ScalarAccumCollection.copy_vals 1 CentralMomentAccum.access_i64 ⟨0, []⟩
          [(⟨3, [5, 7]⟩ : CentralMomentAccum)]) = [⟨3, [5, 7]⟩] ∧
      ScalarAccumCollection.import_vals 2 CentralMomentAccum.set_f64 ⟨0, []⟩ 0
        [(⟨3, [5, 7]⟩ : CentralMomentAccum)]
        (ScalarAccumCollection.copy_vals 2 CentralMomentAccum.access_f64 ⟨0, []⟩
          [(⟨3, [5, 7]⟩ : CentralMomentAccum)]) = [⟨3, [5, 7]⟩]) :=
  ⟨by simp, serialization_roundtrip.1 2 [⟨3, [5, 7]⟩] (by simp)⟩

/-- Witness for `histogram_counts_conservation`: the two-point correlate
run with data edges `[0, 10]` that do contain the statistic value. -/
theorem histogram_counts_conservation_witness :
    ((⟨1, 1, [0], [0, 10]⟩ : GenericHistogramAccumCollection ℤ).n_spatial_bins = 1 ∧
      (⟨1, 1, [0], [0, 10]⟩ : GenericHistogramAccumCollection ℤ).bin_counts =
        List.replicate (1 * 1) 0) ∧
    (process_data_correlate
      (fun n => if n = 1 then 1 else 0) (fun n => if n = 0 then 2 else 3) 2
      (fun n => if n = 1 then 1 else 0) (fun n => if n = 0 then 2 else 3) 2
      2 2 [0, 4] 1 true ⟨1, 1, [0], [0, 10]⟩).bin_counts.sum =
      ((pair_list 2 2 true).countP
        (pair_counted_by_histogram (fun n => if n = 1 then 1 else 0)
          (fun n => if n = 0 then 2 else 3) 2 (fun n => if n = 1 then 1 else 0)
          (fun n => if n = 0 then 2 else 3) 2 [0, 4] 1 [0, 10] 1) : ℤ) :=
  ⟨⟨rfl, rfl⟩,
    histogram_counts_conservation (fun n => if n = 1 then 1 else 0)
      (fun n => if n = 0 then 2 else 3) 2 (fun n => if n = 1 then 1 else 0)
      (fun n => if n = 0 then 2 else 3) 2 2 2 [0, 4] 1 true
      ⟨1, 1, [0], [0, 10]⟩ rfl rfl⟩

